import Mathlib

/-!
# The ATC tariff programs: Lab_PPP_3 (tariff strategies) and Lab_PPP_2 (tariffs and calls)

A shallow embedding of the two console programs of the repository.

* The C++ type `double` is a type parameter `R`.  Every definition asks only for the
  arithmetic and comparison operations its source function really uses, so a result stated
  with these bare operations holds for any arithmetic, rounding or not.  Results that need
  algebraic laws are stated over a field of characteristic zero or a linear ordered field,
  that is for the finite values of `double` with exact operations; `ℚ` is the carrier of the
  worked examples.  Where the infinities, NaN or the rounding of `double` decide a claim,
  the carrier is `Binary64`, the IEEE 754 arithmetic of `double` itself.
* `std::vector` is `List`, `push_back` and `emplace_back` append at the end.
* A `shared_ptr<TariffStrategy>` points to an object that is never modified after its
  construction, so it is embedded as the value it points to; virtual dispatch over the three
  subclasses is pattern matching over three constructors.
* Standard input is embedded as the list of the lines read by the numeric prompts, each line
  being the number parsed from it, or `none` when `cin >> value` fails on it.  In Lab_PPP_2,
  whose menu never clears `failbit`, an extraction is an `Extraction`: the value read, or
  the value a failed extraction leaves in the variable.
* A function or menu step returns an `Option` when the C++ code may give no result: a prompt
  that never returns, a subscript outside a vector, a function returning `int` that ends
  without a `return` statement.  In all these cases the result is `none`.
-/

set_option autoImplicit false

namespace Lab_PPP_3

/-- Objects behind the interface `TariffStrategy` (Lab_PPP_3.cpp, lines 10-80): one
constructor per concrete class, with the fields the C++ constructor initialises.  None of the
three C++ constructors validates its arguments. -/
inductive TariffStrategy (R : Type) where
  | NoDiscountTariff (destination : String) (cost : R)
  | FixedDiscountTariff (destination : String) (cost : R) (discount : R)
  | PercentageDiscountTariff (destination : String) (cost : R) (percentage : R)
  deriving DecidableEq, Repr

/-- Virtual method `getCost` (lines 25-27, 47-49, 69-71). -/
def TariffStrategy.getCost {R : Type} [One R] [Sub R] [Mul R] [Div R] [NatCast R] :
    TariffStrategy R → R
  | .NoDiscountTariff _ cost => cost
  | .FixedDiscountTariff _ cost discount => cost - discount
  | .PercentageDiscountTariff _ cost percentage => cost * (1 - percentage / 100)

/-- Virtual method `getDestination` (lines 29-31, 51-53, 73-75). -/
def TariffStrategy.getDestination {R : Type} : TariffStrategy R → String
  | .NoDiscountTariff destination _ => destination
  | .FixedDiscountTariff destination _ _ => destination
  | .PercentageDiscountTariff destination _ _ => destination

/-- Virtual method `getOriginalCost` (lines 33-35, 55-57, 77-79). -/
def TariffStrategy.getOriginalCost {R : Type} : TariffStrategy R → R
  | .NoDiscountTariff _ cost => cost
  | .FixedDiscountTariff _ cost _ => cost
  | .PercentageDiscountTariff _ cost _ => cost

/-- Class `ATC` of Lab_PPP_3 (lines 82-123): its only field is the vector of tariffs. -/
structure ATC (R : Type) where
  tariffs : List (TariffStrategy R)
  deriving DecidableEq, Repr

/-- State of the object `ATC atc;` declared in `main` (line 154): no tariffs. -/
def ATC.empty {R : Type} : ATC R := ⟨[]⟩

/-- Loop of `ATC::doesTariffExist` (lines 87-92): scan from the front, return `true` at the
first tariff whose destination equals the argument, `false` when the scan ends. -/
def doesTariffExistLoop {R : Type} (destination : String) : List (TariffStrategy R) → Bool
  | [] => false
  | tariff :: rest =>
    if tariff.getDestination = destination then true
    else doesTariffExistLoop destination rest

/-- Method `ATC::doesTariffExist` (lines 86-93). -/
def ATC.doesTariffExist {R : Type} (atc : ATC R) (destination : String) : Bool :=
  doesTariffExistLoop destination atc.tariffs

/-- Method `ATC::addTariff` (lines 95-97): `tariffs.push_back(tariff)`, nothing else. -/
def ATC.addTariff {R : Type} (atc : ATC R) (tariff : TariffStrategy R) : ATC R :=
  { atc with tariffs := atc.tariffs ++ [tariff] }

/-- Method `ATC::calculateAverageCost` (lines 99-108): `0` for an empty vector, otherwise the
accumulator `totalCost`, started at `0` and increased by `getCost()` tariff after tariff,
divided by `tariffs.size()` converted to `double`. -/
def ATC.calculateAverageCost {R : Type} [Zero R] [One R] [Add R] [Sub R] [Mul R] [Div R]
    [NatCast R] (atc : ATC R) : R :=
  if atc.tariffs.isEmpty then 0
  else
    atc.tariffs.foldl (fun totalCost tariff => totalCost + tariff.getCost) 0
      / (atc.tariffs.length : R)

/-- Function `inputNumber` (lines 133-148) over the lines still to be read: a line on which
`cin >> value` fails (`none`) and a line holding a value `<= 0` are answered with the message
"введите положительное число" and the next line is read; the first other value is returned,
together with the lines left.  When the lines run out before a positive value is read the
C++ loop never returns, which is the result `none`. -/
def inputNumber {R : Type} [Zero R] [LE R] [DecidableRel (fun a b : R => a ≤ b)] :
    List (Option R) → Option (R × List (Option R))
  | [] => none
  | none :: rest => inputNumber rest
  | some value :: rest => if value ≤ 0 then inputNumber rest else some (value, rest)

/-- What a tariff-adding menu step of `main` reports on the console:
* `added`: one of the messages "... добавлен успешно." (lines 191, 213, 235);
* `duplicateTariff`: "Ошибка: Тариф на данное направление уже существует." (lines 185, 202,
  224), the error kind `DuplicateTariff` of the specification;
* `costBelowDiscount`: "Ошибка: стоимость не может быть ниже скидки." (line 209), the error
  kind `InvalidDiscount` of the specification for a fixed discount;
* `percentageOutOfRange`: "Ошибка: процент скидки должен быть от 0 до 100." (line 231), the
  error kind `InvalidDiscount` of the specification for a percentage discount. -/
inductive MenuOutcome where
  | added
  | duplicateTariff
  | costBelowDiscount
  | percentageOutOfRange
  deriving DecidableEq, Repr

/-- Lines 208-214 of `main`, case 2, once `cost` and `discount` have been read: the guard
`cost < discount` leaves the switch before any tariff object is made; otherwise
`make_shared<FixedDiscountTariff>(destination, cost, discount)` is added. -/
def addFixedDiscount {R : Type} [LT R] [DecidableRel (fun a b : R => a < b)]
    (atc : ATC R) (destination : String) (cost discount : R) : MenuOutcome × ATC R :=
  if cost < discount then (.costBelowDiscount, atc)
  else (.added, atc.addTariff (.FixedDiscountTariff destination cost discount))

/-- Lines 230-236 of `main`, case 3, once `cost` and `percentage` have been read: the guard
`percentage < 0 || percentage > 100` leaves the switch before any tariff object is made;
otherwise `make_shared<PercentageDiscountTariff>(destination, cost, percentage)` is added. -/
def addPercentageDiscount {R : Type} [Zero R] [NatCast R] [LT R]
    [DecidableRel (fun a b : R => a < b)]
    (atc : ATC R) (destination : String) (cost percentage : R) : MenuOutcome × ATC R :=
  if percentage < 0 ∨ percentage > 100 then (.percentageOutOfRange, atc)
  else (.added, atc.addTariff (.PercentageDiscountTariff destination cost percentage))

/-- Case 1 of the switch in `main` (lines 177-193): `destination` is the line read by
`getline`, `input` the lines read by the numeric prompt.  The result is `none` when the
prompt never gets a value it accepts. -/
def menuCase1 {R : Type} [Zero R] [LE R] [DecidableRel (fun a b : R => a ≤ b)]
    (atc : ATC R) (destination : String) (input : List (Option R)) :
    Option (MenuOutcome × ATC R) :=
  if atc.doesTariffExist destination then some (.duplicateTariff, atc)
  else
    match inputNumber input with
    | none => none
    | some (cost, _) => some (.added, atc.addTariff (.NoDiscountTariff destination cost))

/-- Case 2 of the switch in `main` (lines 194-215). -/
def menuCase2 {R : Type} [Zero R] [LE R] [DecidableRel (fun a b : R => a ≤ b)]
    [LT R] [DecidableRel (fun a b : R => a < b)]
    (atc : ATC R) (destination : String) (input : List (Option R)) :
    Option (MenuOutcome × ATC R) :=
  if atc.doesTariffExist destination then some (.duplicateTariff, atc)
  else
    match inputNumber input with
    | none => none
    | some (cost, rest) =>
      match inputNumber rest with
      | none => none
      | some (discount, _) => some (addFixedDiscount atc destination cost discount)

/-- Case 3 of the switch in `main` (lines 216-237). -/
def menuCase3 {R : Type} [Zero R] [NatCast R] [LE R] [DecidableRel (fun a b : R => a ≤ b)]
    [LT R] [DecidableRel (fun a b : R => a < b)]
    (atc : ATC R) (destination : String) (input : List (Option R)) :
    Option (MenuOutcome × ATC R) :=
  if atc.doesTariffExist destination then some (.duplicateTariff, atc)
  else
    match inputNumber input with
    | none => none
    | some (cost, rest) =>
      match inputNumber rest with
      | none => none
      | some (percentage, _) => some (addPercentageDiscount atc destination cost percentage)

/-- The three tariff-adding cases of `switch (choice)` in `main` (lines 176-237), selected
by the number typed at the menu. -/
inductive AddChoice where
  | noDiscount
  | fixedDiscount
  | percentageDiscount
  deriving DecidableEq, Repr

/-- Dispatch of `switch (choice)` over the cases 1, 2 and 3. -/
def menuAdd {R : Type} [Zero R] [NatCast R] [LE R] [DecidableRel (fun a b : R => a ≤ b)]
    [LT R] [DecidableRel (fun a b : R => a < b)]
    (choice : AddChoice) (atc : ATC R) (destination : String) (input : List (Option R)) :
    Option (MenuOutcome × ATC R) :=
  match choice with
  | .noDiscount => menuCase1 atc destination input
  | .fixedDiscount => menuCase2 atc destination input
  | .percentageDiscount => menuCase3 atc destination input

/-- Successive iterations of the `while (true)` loop of `main` (lines 157-255) that choose
case 1, 2 or 3, each with the destination read by `getline` and the lines read by its
numeric prompts; the iterations choosing 4, 5 or an unknown number only print and leave the
catalog as it is.  The result is `none` when a prompt of some iteration never returns. -/
def menuRun {R : Type} [Zero R] [NatCast R] [LE R] [DecidableRel (fun a b : R => a ≤ b)]
    [LT R] [DecidableRel (fun a b : R => a < b)] (atc : ATC R) :
    List (AddChoice × String × List (Option R)) → Option (ATC R)
  | [] => some atc
  | (choice, destination, input) :: later =>
    match menuAdd choice atc destination input with
    | none => none
    | some (_, atc1) => menuRun atc1 later

end Lab_PPP_3

namespace Lab_PPP_2

/-- Struct `Tariff` of Lab_PPP_2.cpp (lines 19-24). -/
structure Tariff (R : Type) where
  cityName : String
  price : R
  deriving DecidableEq, Repr

/-- Struct `Call` of Lab_PPP_2.cpp (lines 26-37). -/
structure Call (R : Type) where
  clientName : String
  cityName : String
  duration : R
  price : R
  deriving DecidableEq, Repr

/-- Class `ATC` of Lab_PPP_2 (lines 39-110): its three fields. -/
structure ATC (R : Type) where
  tariffs : List (Tariff R)
  calls : List (Call R)
  totalRevenue : R
  deriving DecidableEq, Repr

/-- State built by the constructor `ATC() : totalRevenue(0) {}` (line 44), which is the state
of the singleton returned by the first `getInstance()`. -/
def ATC.getInstance {R : Type} [Zero R] : ATC R := ⟨[], [], 0⟩

/-- Method `ATC::getTariffs` (lines 59-61). -/
def ATC.getTariffs {R : Type} (atc : ATC R) : List (Tariff R) := atc.tariffs

/-- Method `ATC::addTariff` (lines 63-66): `tariffs.emplace_back(cityName, price)`; the
message it prints is not part of the state. -/
def ATC.addTariff {R : Type} (atc : ATC R) (cityName : String) (price : R) : ATC R :=
  { atc with tariffs := atc.tariffs ++ [⟨cityName, price⟩] }

/-- Rows written by the loop of `ATC::printTariffs` (lines 75-77) from index `i` on, over the
tariffs not yet visited: each row is the number `i + 1`, the city and the price. -/
def printTariffsRows {R : Type} (i : Nat) : List (Tariff R) → List (Nat × String × R)
  | [] => []
  | tariff :: rest => (i + 1, tariff.cityName, tariff.price) :: printTariffsRows (i + 1) rest

/-- Listing written by `ATC::printTariffs` (lines 68-79), as rows; empty for no tariffs. -/
def ATC.printTariffsListing {R : Type} (atc : ATC R) : List (Nat × String × R) :=
  printTariffsRows 0 atc.tariffs

/-- What the extraction `cin >> price` of line 150 leaves behind.  `read value`: a number was
read and stored.  `failure stored`: the extraction failed and set `failbit`; `stored` is the
value it left in `price`, which is 0 when no number could be parsed and plus or minus
`numeric_limits<double>::max()` when the number typed is out of range. -/
inductive Extraction (R : Type) where
  | read (value : R)
  | failure (stored : R)
  deriving DecidableEq, Repr

/-- Value of the variable after the extraction. -/
def Extraction.result {R : Type} : Extraction R → R
  | .read value => value
  | .failure stored => stored

/-- Value of `cin.fail()` after the extraction. -/
def Extraction.fail {R : Type} : Extraction R → Bool
  | .read _ => false
  | .failure _ => true

/-- Case 1 of the switch in `menu` (lines 144-159): `cityName` is the line read by
`getline`, `priceInput` what `cin >> price` does.  A price `< 0` leaves the switch before
`addTariff`; there is no other test, so the value stored by a failed extraction is added as
a price when it is not negative. -/
def menuCase1 {R : Type} [LT R] [Zero R] [DecidableRel (fun a b : R => a < b)]
    (atc : ATC R) (cityName : String) (priceInput : Extraction R) : ATC R :=
  let price := priceInput.result
  if price < 0 then atc else atc.addTariff cityName price

/-- Value returned by `ATC::printTariffs` (lines 68-79).  The branch for an empty vector
executes `return 0;`.  The `else` branch writes the rows and then reaches the closing brace
of the function: there is no `return` statement on this path, so no value is returned (in
C++ flowing off the end of a function returning `int` is undefined behaviour), which is the
result `none`. -/
def ATC.printTariffs {R : Type} (atc : ATC R) : Option Int :=
  if atc.tariffs.isEmpty then some 0 else none

/-- Method `ATC::getFarePrice` (lines 81-86), `index` being the value of its `int` argument:
under the guard `index >= 0 && index < tariffs.size()` the price stored at that position,
otherwise `0.0`. -/
def ATC.getFarePrice {R : Type} [Zero R] (atc : ATC R) (index : Int) : R :=
  if h : 0 ≤ index ∧ index < (atc.tariffs.length : Int) then
    (atc.tariffs.get ⟨index.toNat, by omega⟩).price
  else 0

/-- Method `ATC::registerCall` (lines 89-94): `totalCost = duration * pricePerMinute` is added
to `totalRevenue` and a `Call` with that cost is appended to `calls`. -/
def ATC.registerCall {R : Type} [Add R] [Mul R] (atc : ATC R) (clientName cityName : String)
    (duration pricePerMinute : R) : ATC R :=
  let totalCost := duration * pricePerMinute
  { atc with
    totalRevenue := atc.totalRevenue + totalCost
    calls := atc.calls ++ [⟨clientName, cityName, duration, totalCost⟩] }

/-- Method `ATC::getTotalRevenue` (lines 97-99). -/
def ATC.getTotalRevenue {R : Type} (atc : ATC R) : R := atc.totalRevenue

/-- Method `ATC::getClientTotalCallsCost` (lines 101-109): the accumulator `clientTotal`,
started at 0, is increased by `call.price` at every call whose `clientName` equals the
argument, in the order of the vector. -/
def ATC.getClientTotalCallsCost {R : Type} [Zero R] [Add R] (atc : ATC R)
    (clientName : String) : R :=
  atc.calls.foldl
    (fun clientTotal call =>
      if call.clientName = clientName then clientTotal + call.price else clientTotal)
    0

/-- Expression `v[index]` of `std::vector` for an `int` index: the element at that position
when `0 ≤ index < v.size()`.  For any other index `operator[]` has undefined behaviour (it
makes no bounds check), which is the result `none`. -/
def vectorSubscript {α : Type} (v : List α) (index : Int) : Option α :=
  if 0 ≤ index then v[index.toNat]? else none

/-- Lines 175-185 of `menu`, case 3, for a tariff number and a duration that were read
successfully: `--tariffIndex`, then `getFarePrice(tariffIndex)`, then
`registerCall(clientName, getTariffs()[tariffIndex].cityName, duration, pricePerMinute)`.
The subscript is not guarded, so the step has a defined result only for an index inside the
vector. -/
def registerCallStep {R : Type} [Zero R] [Add R] [Mul R] (atc : ATC R) (clientName : String)
    (tariffNumber : Int) (duration : R) : Option (ATC R) :=
  let tariffIndex := tariffNumber - 1
  let pricePerMinute := atc.getFarePrice tariffIndex
  match vectorSubscript atc.getTariffs tariffIndex with
  | none => none
  | some tariff => some (atc.registerCall clientName tariff.cityName duration pricePerMinute)

/-- Case 3 of the switch in `menu` (lines 164-188): the guard `printTariffs() == 0` answers
"Сначало введите хотя бы 1 тариф." and leaves the switch; otherwise the client name is
read, `printTariffs()` is called once more (line 174) and the call is registered.  Both
calls of `printTariffs` must return for the step to have a defined result. -/
def menuCase3 {R : Type} [Zero R] [Add R] [Mul R] (atc : ATC R) (clientName : String)
    (tariffNumber : Int) (duration : R) : Option (ATC R) :=
  match atc.printTariffs with
  | none => none
  | some shown =>
    if shown = 0 then some atc
    else
      match atc.printTariffs with
      | none => none
      | some _ => registerCallStep atc clientName tariffNumber duration

/-- Calls of the public member functions of `ATC` other than `printTariffs`, with their
arguments. -/
inductive Operation (R : Type) where
  | addTariff (cityName : String) (price : R)
  | registerCall (clientName cityName : String) (duration pricePerMinute : R)
  | getFarePrice (index : Int)
  | getTotalRevenue
  | getClientTotalCallsCost (clientName : String)
  | getTariffs
  deriving DecidableEq, Repr

/-- State of the object after a call: `addTariff` and `registerCall` are the two member
functions that are not declared `const`; the four others are `const` and the class has no
`mutable` member, so they leave the object as it is. -/
def ATC.perform {R : Type} [Add R] [Mul R] (atc : ATC R) : Operation R → ATC R
  | .addTariff cityName price => atc.addTariff cityName price
  | .registerCall clientName cityName duration pricePerMinute =>
    atc.registerCall clientName cityName duration pricePerMinute
  | .getFarePrice _ => atc
  | .getTotalRevenue => atc
  | .getClientTotalCallsCost _ => atc
  | .getTariffs => atc

/-- Case 3 of the switch in `menu` as a build executes it.  For a non-empty vector
`printTariffs` has no `return` statement, and the value its caller gets is whatever the
build leaves behind: `returned` is that value, or `none` when the call gives none (the
reading of `menuCase3`, which this function equals for `returned = none`).  For an empty
vector the value is the 0 of `return 0;`. -/
def menuCase3Built {R : Type} [Zero R] [Add R] [Mul R] (returned : Option Int) (atc : ATC R)
    (clientName : String) (tariffNumber : Int) (duration : R) : Option (ATC R) :=
  let shown : Option Int :=
    match atc.printTariffs with
    | some value => some value
    | none => returned
  match shown with
  | none => none
  | some value =>
    if value = 0 then some atc
    else registerCallStep atc clientName tariffNumber duration

/-- What happens in one iteration of the loop of `menu` that chooses case 1 or case 3: what
is typed and, for case 3, what the calls of `printTariffs` give back on a non-empty vector;
the cases 2, 4 and 5 do not call `addTariff` or `registerCall`. -/
inductive MenuCommand (R : Type) where
  | addTariff (cityName : String) (priceInput : Extraction R)
  | registerCall (clientName : String) (tariffNumber : Int) (duration : R)
      (returned : Option Int)
  deriving DecidableEq, Repr

/-- One iteration of the loop of `menu` (lines 126-210); `streamFailed` tells whether
`failbit` is set when the iteration starts, and the result holds its value when the
iteration ends.  The menu never calls `cin.clear()`.  So once an extraction has failed
nothing is read any more, whatever is typed: `cin >> choice` (line 140) assigns nothing and
`choice` still holds 1, the choice of the iteration in which the extraction failed (the
extraction of case 1 is the only one a command lets fail); `getline` leaves `cityName`
empty and `cin >> price` leaves `price` at 0, and case 1 adds that tariff. -/
def menuStep {R : Type} [Zero R] [Add R] [Mul R] [LT R] [DecidableRel (fun a b : R => a < b)]
    (streamFailed : Bool) (atc : ATC R) (command : MenuCommand R) : Option (Bool × ATC R) :=
  if streamFailed then some (true, menuCase1 atc "" (.failure 0))
  else
    match command with
    | .addTariff cityName priceInput =>
      some (priceInput.fail, menuCase1 atc cityName priceInput)
    | .registerCall clientName tariffNumber duration returned =>
      match menuCase3Built returned atc clientName tariffNumber duration with
      | none => none
      | some atc1 => some (false, atc1)

/-- Successive iterations of the loop of `menu`, from a given state of the stream; each
element of the list stands for one iteration.  The result is `none` when one of the
iterations has no defined result. -/
def menuRunFrom {R : Type} [Zero R] [Add R] [Mul R] [LT R]
    [DecidableRel (fun a b : R => a < b)] (streamFailed : Bool) (atc : ATC R) :
    List (MenuCommand R) → Option (ATC R)
  | [] => some atc
  | command :: later =>
    match menuStep streamFailed atc command with
    | none => none
    | some (failed1, atc1) => menuRunFrom failed1 atc1 later

/-- Successive iterations of the loop of `menu`, the stream being good at the start. -/
def menuRun {R : Type} [Zero R] [Add R] [Mul R] [LT R] [DecidableRel (fun a b : R => a < b)]
    (atc : ATC R) (commands : List (MenuCommand R)) : Option (ATC R) :=
  menuRunFrom false atc commands

end Lab_PPP_2

/-- Values of the C++ type `double` in the IEEE 754 binary64 format: a finite value
`± mantissa * 2 ^ exponent`, an infinity, or NaN.  A zero carries a sign, which no
comparison sees. -/
inductive Binary64 where
  | finite (negative : Bool) (mantissa : Nat) (exponent : Int)
  | infinite (negative : Bool)
  | nan
  deriving DecidableEq, Repr

namespace Binary64

/-- Number of binary digits of `n`, counted by halving; `fuel` bounds the number of
halvings. -/
def bitLengthLoop : Nat → Nat → Nat
  | 0, _ => 0
  | fuel + 1, n => if n = 0 then 0 else bitLengthLoop fuel (n / 2) + 1

/-- Number of binary digits of `n`: 0 for 0, and `k + 1` when `2 ^ k ≤ n < 2 ^ (k + 1)`. -/
def bitLength (n : Nat) : Nat := bitLengthLoop n n

/-- Rounding of the exact value `± mantissa * 2 ^ exponent` to binary64, to nearest with
ties to even (the default rounding mode): the mantissa keeps at most 53 binary digits, the
exponent of its last digit is at least -1074 (gradual underflow), and a result that reaches
`2 ^ 1024` is an infinity. -/
def round (negative : Bool) (mantissa : Nat) (exponent : Int) : Binary64 :=
  let shift : Int := max ((bitLength mantissa : Int) - 53) (-1074 - exponent)
  let kept : Nat :=
    if shift ≤ 0 then mantissa
    else
      let quotient := mantissa / 2 ^ shift.toNat
      let remainder := mantissa % 2 ^ shift.toNat
      let half := 2 ^ (shift.toNat - 1)
      if remainder > half ∨ (remainder = half ∧ quotient % 2 = 1) then quotient + 1
      else quotient
  let scale : Int := if shift ≤ 0 then exponent else exponent + shift
  if (bitLength kept : Int) + scale > 1024 then infinite negative
  else finite negative kept scale

/-- Integer `± n`. -/
def signed : Bool → Nat → Int
  | false, n => (n : Int)
  | true, n => -(n : Int)

/-- Addition: NaN for a NaN operand and for infinities of opposite signs, the infinity
when one operand is infinite, the rounded exact sum of two finite operands. -/
def add : Binary64 → Binary64 → Binary64
  | nan, _ => nan
  | _, nan => nan
  | infinite n1, infinite n2 => if n1 = n2 then infinite n1 else nan
  | infinite n1, finite _ _ _ => infinite n1
  | finite _ _ _, infinite n2 => infinite n2
  | finite n1 m1 e1, finite n2 m2 e2 =>
    let e := min e1 e2
    let total : Int :=
      signed n1 (m1 * 2 ^ (e1 - e).toNat) + signed n2 (m2 * 2 ^ (e2 - e).toNat)
    round (decide (total < 0)) total.natAbs e

/-- Change of sign. -/
def neg : Binary64 → Binary64
  | nan => nan
  | infinite n => infinite (!n)
  | finite n m e => finite (!n) m e

/-- Multiplication: NaN for a NaN operand and for zero times an infinity, an infinity when
one operand is infinite, the rounded exact product of two finite operands. -/
def mul : Binary64 → Binary64 → Binary64
  | nan, _ => nan
  | _, nan => nan
  | infinite n1, infinite n2 => infinite (xor n1 n2)
  | infinite n1, finite n2 m2 _ => if m2 = 0 then nan else infinite (xor n1 n2)
  | finite n1 m1 _, infinite n2 => if m1 = 0 then nan else infinite (xor n1 n2)
  | finite n1 m1 e1, finite n2 m2 e2 => round (xor n1 n2) (m1 * m2) (e1 + e2)

/-- Division: NaN for a NaN operand, for two infinities and for zero by zero; an infinity
for an infinite dividend and for a finite one divided by zero; zero for a finite dividend
and an infinite divisor; otherwise the rounded exact quotient.  The quotient is computed
with at least 56 binary digits, and one more digit tells whether the division left a
remainder, so that the rounding sees on which side of a tie the exact quotient lies. -/
def div : Binary64 → Binary64 → Binary64
  | nan, _ => nan
  | _, nan => nan
  | infinite _, infinite _ => nan
  | infinite n1, finite n2 _ _ => infinite (xor n1 n2)
  | finite n1 _ _, infinite n2 => finite (xor n1 n2) 0 0
  | finite n1 m1 e1, finite n2 m2 e2 =>
    if m2 = 0 then (if m1 = 0 then nan else infinite (xor n1 n2))
    else
      let k : Nat := 56 + bitLength m2
      let quotient := m1 * 2 ^ k / m2
      let sticky : Nat := if m1 * 2 ^ k % m2 = 0 then 0 else 1
      round (xor n1 n2) (2 * quotient + sticky) (e1 - e2 - (k : Int) - 1)

/-- Comparison `<`: false when an operand is NaN. -/
def lt : Binary64 → Binary64 → Bool
  | nan, _ => false
  | _, nan => false
  | infinite n1, infinite n2 => n1 && !n2
  | infinite n1, finite _ _ _ => n1
  | finite _ _ _, infinite n2 => !n2
  | finite n1 m1 e1, finite n2 m2 e2 =>
    let e := min e1 e2
    decide (signed n1 (m1 * 2 ^ (e1 - e).toNat) < signed n2 (m2 * 2 ^ (e2 - e).toNat))

/-- Comparison `<=`: false when an operand is NaN. -/
def le : Binary64 → Binary64 → Bool
  | nan, _ => false
  | _, nan => false
  | infinite n1, infinite n2 => n1 || !n2
  | infinite n1, finite _ _ _ => n1
  | finite _ _ _, infinite n2 => !n2
  | finite n1 m1 e1, finite n2 m2 e2 =>
    let e := min e1 e2
    decide (signed n1 (m1 * 2 ^ (e1 - e).toNat) ≤ signed n2 (m2 * 2 ^ (e2 - e).toNat))

instance : Zero Binary64 := ⟨finite false 0 0⟩

instance : One Binary64 := ⟨finite false 1 0⟩

instance : NatCast Binary64 := ⟨fun n => round false n 0⟩

instance : Add Binary64 := ⟨add⟩

instance : Neg Binary64 := ⟨neg⟩

instance : Sub Binary64 := ⟨fun a b => add a (neg b)⟩

instance : Mul Binary64 := ⟨mul⟩

instance : Div Binary64 := ⟨div⟩

instance : LT Binary64 := ⟨fun a b => lt a b = true⟩

instance : LE Binary64 := ⟨fun a b => le a b = true⟩

instance : DecidableRel (fun a b : Binary64 => a < b) :=
  fun a b => inferInstanceAs (Decidable (lt a b = true))

instance : DecidableRel (fun a b : Binary64 => a ≤ b) :=
  fun a b => inferInstanceAs (Decidable (le a b = true))

end Binary64

/-! ## Theorems: Lab_PPP_3 -/

namespace Lab_PPP_3

/-- The accumulation loop of `calculateAverageCost`, started from any value of `totalCost`,
ends with that value plus the sum of the discounted costs (exact arithmetic). -/
theorem foldl_getCost_eq_sum {R : Type} [Field R] (tariffs : List (TariffStrategy R))
    (start : R) :
    tariffs.foldl (fun totalCost tariff => totalCost + tariff.getCost) start
      = start + (tariffs.map TariffStrategy.getCost).sum := by
  induction tariffs generalizing start with
  | nil => simp
  | cons tariff rest ih => simp [ih, add_assoc]

/-- C1: `calculateAverageCost` returns 0 for a catalog without tariffs, and for any other
catalog the sum of `getCost()` over all stored tariffs divided by their number; two
NoDiscount tariffs costing 100 and 50 give 75. -/
theorem calculateAverageCost_mean {R : Type} [Field R] [CharZero R] (atc : ATC R) :
    (atc.tariffs = [] → atc.calculateAverageCost = 0) ∧
    (atc.tariffs ≠ [] → atc.calculateAverageCost
        = (atc.tariffs.map TariffStrategy.getCost).sum / (atc.tariffs.length : R)) ∧
    (∀ a b : String,
      (ATC.mk [.NoDiscountTariff a (100 : R), .NoDiscountTariff b 50]).calculateAverageCost
        = 75) := by
  refine ⟨?_, ?_, ?_⟩
  · intro h
    simp [ATC.calculateAverageCost, h]
  · intro h
    have hne : atc.tariffs.isEmpty = false := by
      cases hts : atc.tariffs with
      | nil => exact absurd hts h
      | cons t ts => rfl
    simp [ATC.calculateAverageCost, hne, foldl_getCost_eq_sum]
  · intro a b
    simp [ATC.calculateAverageCost, TariffStrategy.getCost]
    norm_num

/-- The statement of C1 at concrete catalogs over `ℚ`: the empty one, and one with a fixed
and a percentage discount, whose discounted costs 70 and 45 average to 115/2. -/
theorem calculateAverageCost_mean_witness :
    ((ATC.empty : ATC ℚ).calculateAverageCost = 0) ∧
    ((ATC.mk [.FixedDiscountTariff "Paris" (100 : ℚ) 30,
        .PercentageDiscountTariff "Rome" 50 10]).calculateAverageCost = 115 / 2) := by
  constructor
  · exact (calculateAverageCost_mean (ATC.empty : ATC ℚ)).1 rfl
  · rw [(calculateAverageCost_mean (ATC.mk [.FixedDiscountTariff "Paris" (100 : ℚ) 30,
        .PercentageDiscountTariff "Rome" 50 10])).2.1 (by simp)]
    simp [TariffStrategy.getCost]
    norm_num

/-- C2: a FixedDiscountTariff built with base cost `c` and discount `d`, `d ≤ c`, has
`getCost() = c - d` (the equation holds for whatever subtraction `R` carries). -/
theorem fixedDiscount_getCost {R : Type} [One R] [Sub R] [Mul R] [Div R] [NatCast R] [LE R]
    (dest : String) (c d : R) (_h : d ≤ c) :
    (TariffStrategy.FixedDiscountTariff dest c d).getCost = c - d := rfl

/-- The statement of C2 at base cost 100 and discount 30. -/
theorem fixedDiscount_getCost_witness :
    (30 : ℚ) ≤ 100 ∧
    (TariffStrategy.FixedDiscountTariff "Paris" (100 : ℚ) 30).getCost = 100 - 30 :=
  ⟨by norm_num, fixedDiscount_getCost "Paris" 100 30 (by norm_num)⟩

/-- C3: a PercentageDiscountTariff built with base cost `c` and percentage `p`,
`0 ≤ p ≤ 100`, has `getCost() = c * (1 - p / 100)` (the equation holds for whatever
arithmetic `R` carries). -/
theorem percentageDiscount_getCost {R : Type} [Zero R] [One R] [Sub R] [Mul R] [Div R]
    [NatCast R] [LE R] (dest : String) (c p : R) (_h0 : 0 ≤ p) (_h100 : p ≤ 100) :
    (TariffStrategy.PercentageDiscountTariff dest c p).getCost = c * (1 - p / 100) := rfl

/-- The statement of C3 at base cost 50 and 10 percent, where the discounted cost is 45. -/
theorem percentageDiscount_getCost_witness :
    (0 : ℚ) ≤ 10 ∧ (10 : ℚ) ≤ 100 ∧
    (TariffStrategy.PercentageDiscountTariff "Rome" (50 : ℚ) 10).getCost = 45 := by
  refine ⟨by norm_num, by norm_num, ?_⟩
  rw [percentageDiscount_getCost "Rome" (50 : ℚ) 10 (by norm_num) (by norm_num)]
  norm_num

/-- C4: a NoDiscountTariff built with base cost `c ≥ 0` has `getCost() = c`. -/
theorem noDiscount_getCost {R : Type} [Zero R] [One R] [Sub R] [Mul R] [Div R] [NatCast R]
    [LE R] (dest : String) (c : R) (_h : 0 ≤ c) :
    (TariffStrategy.NoDiscountTariff dest c).getCost = c := rfl

/-- The statement of C4 at base cost 100. -/
theorem noDiscount_getCost_witness :
    (0 : ℚ) ≤ 100 ∧ (TariffStrategy.NoDiscountTariff "Paris" (100 : ℚ)).getCost = 100 :=
  ⟨by norm_num, noDiscount_getCost "Paris" 100 (by norm_num)⟩

/-- C7: for each of the three variants `getOriginalCost()` is the base cost given to the
constructor, whatever the discount or percentage, and `getDestination()` is the destination
given to the constructor. -/
theorem getOriginalCost_getDestination {R : Type} (dest : String) (c d p : R) :
    (TariffStrategy.NoDiscountTariff dest c).getOriginalCost = c ∧
    (TariffStrategy.FixedDiscountTariff dest c d).getOriginalCost = c ∧
    (TariffStrategy.PercentageDiscountTariff dest c p).getOriginalCost = c ∧
    (TariffStrategy.NoDiscountTariff dest c).getDestination = dest ∧
    (TariffStrategy.FixedDiscountTariff dest c d).getDestination = dest ∧
    (TariffStrategy.PercentageDiscountTariff dest c p).getDestination = dest :=
  ⟨rfl, rfl, rfl, rfl, rfl, rfl⟩

/-- The scan of `doesTariffExist` answers `true` exactly when some tariff of the list has
the destination asked for. -/
theorem doesTariffExistLoop_iff {R : Type} (destination : String)
    (tariffs : List (TariffStrategy R)) :
    doesTariffExistLoop destination tariffs = true
      ↔ ∃ tariff ∈ tariffs, tariff.getDestination = destination := by
  induction tariffs with
  | nil => simp [doesTariffExistLoop]
  | cons tariff rest ih =>
    by_cases h : tariff.getDestination = destination
    · simp [doesTariffExistLoop, h]
    · simp [doesTariffExistLoop, h, ih]

/-- C8: `doesTariffExist(d)` is `true` if and only if at least one stored tariff has a
destination equal to `d` as a whole string; on the empty catalog it is `false`, and the
comparison distinguishes upper from lower case. -/
theorem doesTariffExist_iff {R : Type} (atc : ATC R) (d : String) :
    (atc.doesTariffExist d = true ↔ ∃ tariff ∈ atc.tariffs, tariff.getDestination = d) ∧
    (ATC.empty : ATC R).doesTariffExist d = false ∧
    (∀ c : R, (ATC.mk [.NoDiscountTariff "Paris" c]).doesTariffExist "paris" = false) ∧
    (∀ c : R, (ATC.mk [.NoDiscountTariff "Paris" c]).doesTariffExist "Par" = false) := by
  refine ⟨doesTariffExistLoop_iff d atc.tariffs, rfl, ?_, ?_⟩
  · intro c
    simp [ATC.doesTariffExist, doesTariffExistLoop, TariffStrategy.getDestination]
  · intro c
    simp [ATC.doesTariffExist, doesTariffExistLoop, TariffStrategy.getDestination]

/-- A value returned by `inputNumber` has passed the test `value <= 0` negatively. -/
theorem inputNumber_not_le {R : Type} [Zero R] [LE R] [DecidableRel (fun a b : R => a ≤ b)]
    (input : List (Option R)) (value : R) (rest : List (Option R))
    (h : inputNumber input = some (value, rest)) : ¬ value ≤ 0 := by
  induction input with
  | nil => simp [inputNumber] at h
  | cons line lines ih =>
    cases line with
    | none => exact ih (by simpa [inputNumber] using h)
    | some v =>
      by_cases hv : v ≤ 0
      · exact ih (by simpa [inputNumber, hv] using h)
      · simp only [inputNumber, hv, if_false, Option.some.injEq, Prod.mk.injEq] at h
        exact h.1 ▸ hv

/-- The two ways case 2 can end: the catalog is untouched, or the tariff appended has the
destination typed in and a cost and a discount that passed `inputNumber` and the guard. -/
theorem menuCase2_result {R : Type} [Zero R] [LE R] [DecidableRel (fun a b : R => a ≤ b)]
    [LT R] [DecidableRel (fun a b : R => a < b)]
    (atc : ATC R) (dest : String) (input : List (Option R)) (outcome : MenuOutcome)
    (atc1 : ATC R) (h : menuCase2 atc dest input = some (outcome, atc1)) :
    (outcome ≠ .added ∧ atc1 = atc) ∨
    (outcome = .added ∧ atc.doesTariffExist dest = false ∧
      ∃ cost discount : R, ¬ cost ≤ 0 ∧ ¬ discount ≤ 0 ∧ ¬ cost < discount ∧
        atc1 = atc.addTariff (.FixedDiscountTariff dest cost discount)) := by
  unfold menuCase2 at h
  by_cases hex : atc.doesTariffExist dest = true
  · simp only [hex, if_true, Option.some.injEq, Prod.mk.injEq] at h
    exact Or.inl ⟨by rw [← h.1]; decide, h.2.symm⟩
  · have hex' : atc.doesTariffExist dest = false := by simpa using hex
    simp only [hex', Bool.false_eq_true, if_false] at h
    cases h1 : inputNumber input with
    | none => simp [h1] at h
    | some r1 =>
      obtain ⟨cost, rest⟩ := r1
      cases h2 : inputNumber rest with
      | none => simp [h1, h2] at h
      | some r2 =>
        obtain ⟨discount, rest2⟩ := r2
        simp only [h1, h2, if_false, Option.some.injEq] at h
        unfold addFixedDiscount at h
        by_cases hg : cost < discount
        · simp only [hg, if_true, Prod.mk.injEq] at h
          exact Or.inl ⟨by rw [← h.1]; decide, h.2.symm⟩
        · simp only [hg, if_false, Prod.mk.injEq] at h
          exact Or.inr ⟨h.1.symm, hex', cost, discount,
            inputNumber_not_le input cost rest h1, inputNumber_not_le rest discount rest2 h2,
            hg, h.2.symm⟩

/-- The two ways case 3 can end: the catalog is untouched, or the tariff appended has the
destination typed in and a cost and a percentage that passed `inputNumber` and the guard. -/
theorem menuCase3_result {R : Type} [Zero R] [NatCast R] [LE R]
    [DecidableRel (fun a b : R => a ≤ b)] [LT R] [DecidableRel (fun a b : R => a < b)]
    (atc : ATC R) (dest : String) (input : List (Option R)) (outcome : MenuOutcome)
    (atc1 : ATC R) (h : menuCase3 atc dest input = some (outcome, atc1)) :
    (outcome ≠ .added ∧ atc1 = atc) ∨
    (outcome = .added ∧ atc.doesTariffExist dest = false ∧
      ∃ cost percentage : R, ¬ cost ≤ 0 ∧ ¬ percentage ≤ 0 ∧
        ¬ (percentage < 0 ∨ percentage > 100) ∧
        atc1 = atc.addTariff (.PercentageDiscountTariff dest cost percentage)) := by
  unfold menuCase3 at h
  by_cases hex : atc.doesTariffExist dest = true
  · simp only [hex, if_true, Option.some.injEq, Prod.mk.injEq] at h
    exact Or.inl ⟨by rw [← h.1]; decide, h.2.symm⟩
  · have hex' : atc.doesTariffExist dest = false := by simpa using hex
    simp only [hex', Bool.false_eq_true, if_false] at h
    cases h1 : inputNumber input with
    | none => simp [h1] at h
    | some r1 =>
      obtain ⟨cost, rest⟩ := r1
      cases h2 : inputNumber rest with
      | none => simp [h1, h2] at h
      | some r2 =>
        obtain ⟨percentage, rest2⟩ := r2
        simp only [h1, h2, if_false, Option.some.injEq] at h
        unfold addPercentageDiscount at h
        by_cases hg : percentage < 0 ∨ percentage > 100
        · simp only [hg, if_true, Prod.mk.injEq] at h
          exact Or.inl ⟨by rw [← h.1]; decide, h.2.symm⟩
        · simp only [hg, if_false, Prod.mk.injEq] at h
          exact Or.inr ⟨h.1.symm, hex', cost, percentage,
            inputNumber_not_le input cost rest h1,
            inputNumber_not_le rest percentage rest2 h2, hg, h.2.symm⟩

/-- Case 1 ends with the catalog untouched or with a NoDiscount tariff for the destination
typed in appended. -/
theorem menuCase1_result {R : Type} [Zero R] [LE R] [DecidableRel (fun a b : R => a ≤ b)]
    (atc : ATC R) (dest : String) (input : List (Option R)) (outcome : MenuOutcome)
    (atc1 : ATC R) (h : menuCase1 atc dest input = some (outcome, atc1)) :
    (outcome ≠ .added ∧ atc1 = atc) ∨
    (outcome = .added ∧ atc.doesTariffExist dest = false ∧
      ∃ cost : R, ¬ cost ≤ 0 ∧ atc1 = atc.addTariff (.NoDiscountTariff dest cost)) := by
  unfold menuCase1 at h
  by_cases hex : atc.doesTariffExist dest = true
  · simp only [hex, if_true, Option.some.injEq, Prod.mk.injEq] at h
    exact Or.inl ⟨by rw [← h.1]; decide, h.2.symm⟩
  · have hex' : atc.doesTariffExist dest = false := by simpa using hex
    simp only [hex', Bool.false_eq_true, if_false] at h
    cases h1 : inputNumber input with
    | none => simp [h1] at h
    | some r1 =>
      obtain ⟨cost, rest⟩ := r1
      simp only [h1, if_false, Option.some.injEq, Prod.mk.injEq] at h
      exact Or.inr ⟨h.1.symm, hex', cost,
        inputNumber_not_le input cost rest h1, h.2.symm⟩

/-- Counterexample to C5 as stated: constructing a FixedDiscountTariff with a discount above
its base cost does not fail.  The constructor checks nothing, so the object with cost 10 and
discount 11 is a value like any other, its `getCost()` is -1, and `ATC::addTariff` stores
it. -/
theorem fixedDiscount_constructor_accepts :
    (TariffStrategy.FixedDiscountTariff "Paris" (10 : ℚ) 11).getCost = -1 ∧
    (TariffStrategy.FixedDiscountTariff "Paris" (10 : ℚ) 11).getOriginalCost = 10 ∧
    ((ATC.empty : ATC ℚ).addTariff (.FixedDiscountTariff "Paris" 10 11)).tariffs
      = [.FixedDiscountTariff "Paris" 10 11] := by
  refine ⟨?_, rfl, by decide⟩
  simp only [TariffStrategy.getCost]
  norm_num

/-- C5, amended: the rejection of a fixed discount above the base cost is made by menu
case 2, not by the constructor: for `d > c` the guard of case 2 answers "стоимость не может
быть ниже скидки" before any tariff object is made and leaves the catalog as it was, also
when `c` and `d` are typed at the two prompts, and whatever is typed no step of case 2 puts
a `FixedDiscountTariff(dest, c, d)` into the catalog.  `ATC::addTariff` itself stores such a
tariff when it is given one. -/
theorem fixedDiscount_above_cost_rejected {R : Type} [Zero R] [LE R]
    [DecidableRel (fun a b : R => a ≤ b)] [LT R] [DecidableRel (fun a b : R => a < b)]
    (atc : ATC R) (dest : String) (c d : R) (h : d > c) :
    addFixedDiscount atc dest c d = (.costBelowDiscount, atc) ∧
    (∀ rest : List (Option R), atc.doesTariffExist dest = false → ¬ c ≤ 0 → ¬ d ≤ 0 →
      menuCase2 atc dest (some c :: some d :: rest) = some (.costBelowDiscount, atc)) ∧
    (∀ (input : List (Option R)) (outcome : MenuOutcome) (atc1 : ATC R),
      menuCase2 atc dest input = some (outcome, atc1) →
      ∀ dest1 : String, TariffStrategy.FixedDiscountTariff dest1 c d ∈ atc1.tariffs →
        TariffStrategy.FixedDiscountTariff dest1 c d ∈ atc.tariffs) ∧
    (atc.addTariff (.FixedDiscountTariff dest c d)).tariffs
      = atc.tariffs ++ [.FixedDiscountTariff dest c d] := by
  have hlt : c < d := h
  have hguard : addFixedDiscount atc dest c d = (.costBelowDiscount, atc) := by
    simp [addFixedDiscount, hlt]
  refine ⟨hguard, ?_, ?_, rfl⟩
  · intro rest hex hc hd
    simp [menuCase2, hex, inputNumber, hc, hd, hguard]
  · intro input outcome atc1 hstep dest1 hmem
    rcases menuCase2_result atc dest input outcome atc1 hstep with ⟨_, hsame⟩ | hadd
    · rw [hsame] at hmem
      exact hmem
    · obtain ⟨_, _, cost, discount, _, _, hg, hnew⟩ := hadd
      rw [hnew] at hmem
      simp only [ATC.addTariff, List.mem_append, List.mem_singleton] at hmem
      rcases hmem with hold | heq
      · exact hold
      · injection heq with _ hcost hdisc
        exact absurd (hcost ▸ hdisc ▸ hlt) hg

/-- The amended C5 at base cost 10 and discount 11, on the empty catalog. -/
theorem fixedDiscount_above_cost_rejected_witness :
    (11 : ℚ) > 10 ∧
    addFixedDiscount (ATC.empty : ATC ℚ) "Paris" 10 11 = (.costBelowDiscount, ATC.empty) ∧
    menuCase2 (ATC.empty : ATC ℚ) "Paris" [some 10, some 11] =
      some (.costBelowDiscount, ATC.empty) := by
  have hgt : (11 : ℚ) > 10 := by norm_num
  have key := fixedDiscount_above_cost_rejected (ATC.empty : ATC ℚ) "Paris" 10 11 hgt
  exact ⟨hgt, key.1, key.2.1 [] rfl (by norm_num) (by norm_num)⟩

/-- Counterexample to C6 as stated: the percentage 0 is not accepted.  With cost 10 and
percentage 0 typed on the empty catalog, `inputNumber` discards the 0 and asks again: when
nothing else is typed no tariff is ever added, when 50 is typed next the tariff added has
percentage 50, and no input at all makes case 3 add a tariff with percentage 0. -/
theorem percentage_zero_not_accepted :
    menuCase3 (ATC.empty : ATC ℚ) "Paris" [some 10, some 0] = none ∧
    menuCase3 (ATC.empty : ATC ℚ) "Paris" [some 10, some 0, some 50] =
      some (.added, ATC.mk [.PercentageDiscountTariff "Paris" 10 50]) ∧
    ¬ ∃ (input : List (Option ℚ)) (outcome : MenuOutcome),
      menuCase3 (ATC.empty : ATC ℚ) "Paris" input =
        some (outcome, ATC.mk [.PercentageDiscountTariff "Paris" 10 0]) := by
  refine ⟨by decide, by decide, ?_⟩
  rintro ⟨input, outcome, hstep⟩
  rcases menuCase3_result _ _ _ _ _ hstep with ⟨_, hsame⟩ | hadd
  · exact absurd hsame (by decide)
  · obtain ⟨_, _, cost, percentage, _, hp, _, hnew⟩ := hadd
    have hts := congrArg (fun a : ATC ℚ => a.tariffs) hnew
    simp only [ATC.addTariff, ATC.empty, List.nil_append, List.cons.injEq, and_true] at hts
    injection hts with _ _ hperc
    exact hp (by rw [← hperc])

/-- C6, amended: in menu case 3 a PercentageDiscount tariff is added exactly for a percentage
`p` with `0 < p ≤ 100`.  The guard of case 3 lets through exactly `0 ≤ p ≤ 100` and answers
"процент скидки должен быть от 0 до 100" for every other `p`, leaving the catalog as it was;
but a percentage `p ≤ 0`, zero included, never reaches that guard, because `inputNumber`
discards it and reads the next line.  So a typed `p` with `0 < p ≤ 100` is accepted, a typed
`p > 100` is rejected with the catalog unchanged, and a tariff of percentage `p` that case 3
puts into the catalog has `0 < p ≤ 100`. -/
theorem percentage_accepted_iff {R : Type} [LinearOrderedField R]
    (atc : ATC R) (dest : String) (cost p : R) :
    (addPercentageDiscount atc dest cost p
        = (.added, atc.addTariff (.PercentageDiscountTariff dest cost p))
      ↔ 0 ≤ p ∧ p ≤ 100) ∧
    (addPercentageDiscount atc dest cost p = (.percentageOutOfRange, atc)
      ↔ p < 0 ∨ 100 < p) ∧
    (p ≤ 0 → ∀ rest : List (Option R), inputNumber (some p :: rest) = inputNumber rest) ∧
    (atc.doesTariffExist dest = false → 0 < cost → 0 < p → p ≤ 100 →
      ∀ rest : List (Option R), menuCase3 atc dest (some cost :: some p :: rest)
        = some (.added, atc.addTariff (.PercentageDiscountTariff dest cost p))) ∧
    (atc.doesTariffExist dest = false → 0 < cost → 100 < p →
      ∀ rest : List (Option R), menuCase3 atc dest (some cost :: some p :: rest)
        = some (.percentageOutOfRange, atc)) ∧
    (∀ (input : List (Option R)) (outcome : MenuOutcome) (atc1 : ATC R),
      menuCase3 atc dest input = some (outcome, atc1) →
      ∀ dest1 : String, TariffStrategy.PercentageDiscountTariff dest1 cost p ∈ atc1.tariffs →
        TariffStrategy.PercentageDiscountTariff dest1 cost p ∉ atc.tariffs →
        0 < p ∧ p ≤ 100) := by
  refine ⟨?_, ?_, ?_, ?_, ?_, ?_⟩
  · by_cases hg : p < 0 ∨ p > 100
    · have hno : ¬ (0 ≤ p ∧ p ≤ 100) := by
        rintro ⟨h0, h100⟩
        rcases hg with hg | hg
        · exact absurd h0 (not_le.mpr hg)
        · exact absurd h100 (not_le.mpr hg)
      simp [addPercentageDiscount, hg, hno]
    · have hyes : 0 ≤ p ∧ p ≤ 100 := by
        constructor
        · exact not_lt.mp (fun h => hg (Or.inl h))
        · exact not_lt.mp (fun h => hg (Or.inr h))
      simp [addPercentageDiscount, hg, hyes]
  · by_cases hg : p < 0 ∨ p > 100
    · have hg1 : p < 0 ∨ 100 < p := hg
      simp [addPercentageDiscount, hg, hg1]
    · have hg1 : ¬ (p < 0 ∨ 100 < p) := hg
      simp only [addPercentageDiscount, hg, if_false, hg1, iff_false]
      intro hbad
      have hfst : MenuOutcome.added = MenuOutcome.percentageOutOfRange :=
        congrArg Prod.fst hbad
      cases hfst
  · intro hp rest
    simp [inputNumber, hp]
  · intro hex hcost hp hp100 rest
    have hg : ¬ (p < 0 ∨ p > 100) := by
      rintro (h | h)
      · exact absurd hp (not_lt.mpr h.le)
      · exact absurd hp100 (not_le.mpr h)
    simp [menuCase3, hex, inputNumber, not_le.mpr hcost, not_le.mpr hp, addPercentageDiscount,
      hg]
  · intro hex hcost hp rest
    have hpos : 0 < p := lt_trans (by norm_num) hp
    have hg : p < 0 ∨ p > 100 := Or.inr hp
    simp [menuCase3, hex, inputNumber, not_le.mpr hcost, not_le.mpr hpos,
      addPercentageDiscount, hg]
  · intro input outcome atc1 hstep dest1 hmem hnew
    rcases menuCase3_result atc dest input outcome atc1 hstep with ⟨_, hsame⟩ | hadd
    · rw [hsame] at hmem
      exact absurd hmem hnew
    · obtain ⟨_, _, cost1, percentage, _, hpc, hg, hatc⟩ := hadd
      rw [hatc] at hmem
      simp only [ATC.addTariff, List.mem_append, List.mem_singleton] at hmem
      rcases hmem with hold | heq
      · exact absurd hold hnew
      · injection heq with _ _ hperc
        subst hperc
        exact ⟨not_le.mp hpc, not_lt.mp (fun h => hg (Or.inr h))⟩

/-- The amended C6 at concrete inputs on the empty catalog: 100 percent is accepted, 101
percent is rejected by the guard, and a typed 0 is skipped by `inputNumber`. -/
theorem percentage_accepted_iff_witness :
    menuCase3 (ATC.empty : ATC ℚ) "Paris" [some 10, some 100]
      = some (.added, ATC.mk [.PercentageDiscountTariff "Paris" 10 100]) ∧
    menuCase3 (ATC.empty : ATC ℚ) "Paris" [some 10, some 101]
      = some (.percentageOutOfRange, ATC.empty) ∧
    inputNumber [some (0 : ℚ), some 50] = inputNumber [some (50 : ℚ)] := by
  refine ⟨?_, ?_, ?_⟩
  · exact (percentage_accepted_iff (ATC.empty : ATC ℚ) "Paris" 10 100).2.2.2.1 rfl
      (by norm_num) (by norm_num) (by norm_num) []
  · exact (percentage_accepted_iff (ATC.empty : ATC ℚ) "Paris" 10 101).2.2.2.2.1 rfl
      (by norm_num) (by norm_num) []
  · exact (percentage_accepted_iff (ATC.empty : ATC ℚ) "Paris" 10 0).2.2.1 le_rfl [some 50]

/-- A tariff-adding menu step that reports success found the destination absent and has
appended one tariff with that destination. -/
theorem menuAdd_added {R : Type} [Zero R] [NatCast R] [LE R]
    [DecidableRel (fun a b : R => a ≤ b)] [LT R] [DecidableRel (fun a b : R => a < b)]
    (choice : AddChoice) (atc : ATC R) (d : String) (input : List (Option R)) (atc1 : ATC R)
    (h : menuAdd choice atc d input = some (.added, atc1)) :
    atc.doesTariffExist d = false ∧
      ∃ tariff : TariffStrategy R, tariff.getDestination = d ∧ atc1 = atc.addTariff tariff := by
  cases choice with
  | noDiscount =>
    rcases menuCase1_result atc d input _ atc1 h with ⟨hne, _⟩ | ⟨_, hex, cost, _, hnew⟩
    · exact absurd rfl hne
    · exact ⟨hex, .NoDiscountTariff d cost, rfl, hnew⟩
  | fixedDiscount =>
    rcases menuCase2_result atc d input _ atc1 h with
      ⟨hne, _⟩ | ⟨_, hex, cost, discount, _, _, _, hnew⟩
    · exact absurd rfl hne
    · exact ⟨hex, .FixedDiscountTariff d cost discount, rfl, hnew⟩
  | percentageDiscount =>
    rcases menuCase3_result atc d input _ atc1 h with
      ⟨hne, _⟩ | ⟨_, hex, cost, percentage, _, _, _, hnew⟩
    · exact absurd rfl hne
    · exact ⟨hex, .PercentageDiscountTariff d cost percentage, rfl, hnew⟩

/-- When the scan of `doesTariffExist` fails, no tariff of the list has the destination. -/
theorem countP_eq_zero_of_not_exist {R : Type} (d : String)
    (tariffs : List (TariffStrategy R)) (h : doesTariffExistLoop d tariffs = false) :
    tariffs.countP (fun tariff => decide (tariff.getDestination = d)) = 0 := by
  rw [List.countP_eq_zero]
  intro tariff hmem hdest
  have hex : doesTariffExistLoop d tariffs = true :=
    (doesTariffExistLoop_iff d tariffs).mpr ⟨tariff, hmem, by simpa using hdest⟩
  rw [h] at hex
  exact Bool.false_ne_true hex

/-- Counterexample to C9 as stated: `addTariff` does not reject a destination that is already
stored.  In Lab_PPP_3 two calls of `ATC::addTariff` for "Paris" leave two tariffs for
"Paris"; in Lab_PPP_2 the same holds for `ATC::addTariff` and for the whole menu step
(case 1), which never looks for the city among the stored tariffs. -/
theorem addTariff_twice_stores_both :
    (((ATC.empty : ATC ℚ).addTariff (.NoDiscountTariff "Paris" 10)).addTariff
        (.NoDiscountTariff "Paris" 20)).tariffs
      = [.NoDiscountTariff "Paris" 10, .NoDiscountTariff "Paris" 20] ∧
    (((Lab_PPP_2.ATC.getInstance : Lab_PPP_2.ATC ℚ).addTariff "Paris" 1).addTariff
        "Paris" 2).getTariffs
      = [⟨"Paris", 1⟩, ⟨"Paris", 2⟩] ∧
    (Lab_PPP_2.menuCase1
        (Lab_PPP_2.menuCase1 (Lab_PPP_2.ATC.getInstance : Lab_PPP_2.ATC ℚ) "Paris" (.read 1))
        "Paris" (.read 2)).getTariffs
      = [⟨"Paris", 1⟩, ⟨"Paris", 2⟩] := by
  refine ⟨by decide, by decide, by decide⟩

/-- C9, amended: in Lab_PPP_3 every tariff-adding menu step (cases 1, 2 and 3) first asks
`doesTariffExist(d)` and, when the destination is already stored, reports the duplicate and
leaves the catalog unchanged; hence after a menu step that added a tariff for `d`, a second
menu step for `d` is rejected, the catalog is unchanged by it and holds exactly one tariff
for `d`.  `ATC::addTariff` itself makes no such test: it appends whatever it is given. -/
theorem menuAdd_duplicate_rejected {R : Type} [Zero R] [NatCast R] [LE R]
    [DecidableRel (fun a b : R => a ≤ b)] [LT R] [DecidableRel (fun a b : R => a < b)]
    (atc : ATC R) (d : String) :
    (∀ (choice : AddChoice) (input : List (Option R)), atc.doesTariffExist d = true →
      menuAdd choice atc d input = some (.duplicateTariff, atc)) ∧
    (∀ (choice1 choice2 : AddChoice) (input1 input2 : List (Option R)) (atc1 : ATC R),
      menuAdd choice1 atc d input1 = some (.added, atc1) →
      menuAdd choice2 atc1 d input2 = some (.duplicateTariff, atc1) ∧
      atc1.tariffs.countP (fun tariff => decide (tariff.getDestination = d)) = 1) ∧
    (∀ tariff : TariffStrategy R, (atc.addTariff tariff).tariffs = atc.tariffs ++ [tariff]) := by
  have hdup : ∀ (atc0 : ATC R) (choice : AddChoice) (input : List (Option R)),
      atc0.doesTariffExist d = true →
      menuAdd choice atc0 d input = some (.duplicateTariff, atc0) := by
    intro atc0 choice input hex
    cases choice <;> simp [menuAdd, menuCase1, menuCase2, menuCase3, hex]
  refine ⟨hdup atc, ?_, fun _ => rfl⟩
  intro choice1 choice2 input1 input2 atc1 hfirst
  obtain ⟨hex, tariff, hdest, hnew⟩ := menuAdd_added choice1 atc d input1 atc1 hfirst
  have hex1 : atc1.doesTariffExist d = true := by
    rw [hnew]
    exact (doesTariffExistLoop_iff d _).mpr ⟨tariff, by simp [ATC.addTariff], hdest⟩
  refine ⟨hdup atc1 choice2 input2 hex1, ?_⟩
  rw [hnew]
  simp only [ATC.addTariff, List.countP_append, countP_eq_zero_of_not_exist d atc.tariffs hex]
  simp [hdest]

/-- The amended C9 for "Paris" typed twice on the empty catalog, first in case 1 with cost
10, then in case 2 with cost 20 and discount 5: the second step is rejected. -/
theorem menuAdd_duplicate_rejected_witness :
    menuAdd .noDiscount (ATC.empty : ATC ℚ) "Paris" [some 10]
      = some (.added, ATC.mk [.NoDiscountTariff "Paris" 10]) ∧
    menuAdd .fixedDiscount (ATC.mk [.NoDiscountTariff "Paris" (10 : ℚ)]) "Paris"
        [some 20, some 5]
      = some (.duplicateTariff, ATC.mk [.NoDiscountTariff "Paris" 10]) ∧
    (ATC.mk [.NoDiscountTariff "Paris" (10 : ℚ)]).tariffs.countP
      (fun tariff => decide (tariff.getDestination = "Paris")) = 1 := by
  have hfirst : menuAdd .noDiscount (ATC.empty : ATC ℚ) "Paris" [some 10]
      = some (.added, ATC.mk [.NoDiscountTariff "Paris" 10]) := by decide
  have key := (menuAdd_duplicate_rejected (ATC.empty : ATC ℚ) "Paris").2.1
    .noDiscount .fixedDiscount [some 10] [some 20, some 5] _ hfirst
  exact ⟨hfirst, key.1, key.2⟩

/-- C10: `addTariff` yields the previous tariff sequence with the new tariff appended as its
last element, in Lab_PPP_3 and in Lab_PPP_2 alike, whether or not the destination was
present before, so in particular when it was not: the length grows by exactly one, every
earlier tariff keeps its index, the new tariff sits at the old length, and the numbered
listing of `printTariffs` is the old listing followed by one row numbered with the new
length.  In menu case 1 of Lab_PPP_3 a destination not yet present and an accepted cost are
appended in this way. -/
theorem addTariff_appends_last {R : Type} [Zero R] [LE R]
    [DecidableRel (fun a b : R => a ≤ b)]
    (atc : ATC R) (tariff : TariffStrategy R)
    (atc2 : Lab_PPP_2.ATC R) (cityName : String) (price : R) :
    ((atc.addTariff tariff).tariffs = atc.tariffs ++ [tariff] ∧
      (atc.addTariff tariff).tariffs.length = atc.tariffs.length + 1 ∧
      (∀ i : Nat, i < atc.tariffs.length →
        (atc.addTariff tariff).tariffs[i]? = atc.tariffs[i]?) ∧
      (atc.addTariff tariff).tariffs[atc.tariffs.length]? = some tariff) ∧
    ((atc2.addTariff cityName price).getTariffs = atc2.getTariffs ++ [⟨cityName, price⟩] ∧
      (atc2.addTariff cityName price).getTariffs.length = atc2.getTariffs.length + 1 ∧
      (∀ i : Nat, i < atc2.getTariffs.length →
        (atc2.addTariff cityName price).getTariffs[i]? = atc2.getTariffs[i]?) ∧
      (atc2.addTariff cityName price).getTariffs[atc2.getTariffs.length]?
        = some ⟨cityName, price⟩ ∧
      (atc2.addTariff cityName price).printTariffsListing
        = atc2.printTariffsListing ++ [(atc2.getTariffs.length + 1, cityName, price)]) ∧
    (∀ (cost : R) (rest : List (Option R)),
      atc.doesTariffExist cityName = false → ¬ cost ≤ 0 →
      menuCase1 atc cityName (some cost :: rest)
        = some (.added, atc.addTariff (.NoDiscountTariff cityName cost))) := by
  have hrows : ∀ (tariffs : List (Lab_PPP_2.Tariff R)) (i : Nat),
      Lab_PPP_2.printTariffsRows i (tariffs ++ [⟨cityName, price⟩])
        = Lab_PPP_2.printTariffsRows i tariffs ++ [(i + tariffs.length + 1, cityName, price)] := by
    intro tariffs
    induction tariffs with
    | nil => intro i; simp [Lab_PPP_2.printTariffsRows]
    | cons t ts ih =>
      intro i
      have hidx : i + 1 + ts.length + 1 = i + (ts.length + 1) + 1 := by omega
      rw [List.cons_append]
      simp only [Lab_PPP_2.printTariffsRows, ih (i + 1), List.length_cons, hidx,
        List.cons_append]
  refine ⟨⟨rfl, ?_, ?_, ?_⟩, ⟨rfl, ?_, ?_, ?_, ?_⟩, ?_⟩
  · simp [ATC.addTariff]
  · intro i hi
    simp [ATC.addTariff, List.getElem?_append_left hi]
  · simp [ATC.addTariff]
  · simp [Lab_PPP_2.ATC.addTariff, Lab_PPP_2.ATC.getTariffs]
  · intro i hi
    simp only [Lab_PPP_2.ATC.getTariffs] at hi
    simp [Lab_PPP_2.ATC.addTariff, Lab_PPP_2.ATC.getTariffs, List.getElem?_append_left hi]
  · simp [Lab_PPP_2.ATC.addTariff, Lab_PPP_2.ATC.getTariffs]
  · simp [Lab_PPP_2.ATC.printTariffsListing, Lab_PPP_2.ATC.addTariff,
      Lab_PPP_2.ATC.getTariffs, hrows]
  · intro cost rest hex hcost
    simp [menuCase1, hex, inputNumber, hcost]

/-- The statement of C10 at concrete catalogs: "Rome" is appended after "Paris" in both
programs and is listed as row 2. -/
theorem addTariff_appends_last_witness :
    ((ATC.mk [.NoDiscountTariff "Paris" (10 : ℚ)]).addTariff
        (.FixedDiscountTariff "Rome" 20 5)).tariffs
      = [.NoDiscountTariff "Paris" 10, .FixedDiscountTariff "Rome" 20 5] ∧
    (((Lab_PPP_2.ATC.getInstance : Lab_PPP_2.ATC ℚ).addTariff "Paris" 1).addTariff
        "Rome" 2).printTariffsListing
      = [(1, "Paris", 1), (2, "Rome", 2)] := by
  have key := addTariff_appends_last (ATC.mk [.NoDiscountTariff "Paris" (10 : ℚ)])
    (.FixedDiscountTariff "Rome" 20 5)
    ((Lab_PPP_2.ATC.getInstance : Lab_PPP_2.ATC ℚ).addTariff "Paris" 1) "Rome" 2
  refine ⟨key.1.1, ?_⟩
  rw [key.2.1.2.2.2.2]
  decide

end Lab_PPP_3

namespace Lab_PPP_3

/-- What a tariff-adding menu step can do to the catalog: nothing, or append one tariff for
the destination typed in, which was absent, with a cost that passed `inputNumber`. -/
theorem menuAdd_result {R : Type} [Zero R] [NatCast R] [LE R]
    [DecidableRel (fun a b : R => a ≤ b)] [LT R] [DecidableRel (fun a b : R => a < b)]
    (choice : AddChoice) (atc : ATC R) (d : String) (input : List (Option R))
    (outcome : MenuOutcome) (atc1 : ATC R)
    (h : menuAdd choice atc d input = some (outcome, atc1)) :
    atc1 = atc ∨
      (atc.doesTariffExist d = false ∧
        ∃ tariff : TariffStrategy R, tariff.getDestination = d ∧
          ¬ tariff.getOriginalCost ≤ 0 ∧ atc1 = atc.addTariff tariff) := by
  cases choice with
  | noDiscount =>
    rcases menuCase1_result atc d input outcome atc1 h with
      ⟨_, hsame⟩ | ⟨_, hex, cost, hcost, hnew⟩
    · exact Or.inl hsame
    · exact Or.inr ⟨hex, .NoDiscountTariff d cost, rfl, hcost, hnew⟩
  | fixedDiscount =>
    rcases menuCase2_result atc d input outcome atc1 h with
      ⟨_, hsame⟩ | ⟨_, hex, cost, discount, hcost, _, _, hnew⟩
    · exact Or.inl hsame
    · exact Or.inr ⟨hex, .FixedDiscountTariff d cost discount, rfl, hcost, hnew⟩
  | percentageDiscount =>
    rcases menuCase3_result atc d input outcome atc1 h with
      ⟨_, hsame⟩ | ⟨_, hex, cost, percentage, hcost, _, _, hnew⟩
    · exact Or.inl hsame
    · exact Or.inr ⟨hex, .PercentageDiscountTariff d cost percentage, rfl, hcost, hnew⟩

/-- A property of the catalog kept by every tariff-adding menu step is kept by every run of
such steps. -/
theorem menuRun_invariant {R : Type} [Zero R] [NatCast R] [LE R]
    [DecidableRel (fun a b : R => a ≤ b)] [LT R] [DecidableRel (fun a b : R => a < b)]
    (P : ATC R → Prop)
    (hstep : ∀ (choice : AddChoice) (atc : ATC R) (d : String) (input : List (Option R))
      (outcome : MenuOutcome) (atc1 : ATC R),
      P atc → menuAdd choice atc d input = some (outcome, atc1) → P atc1)
    (steps : List (AddChoice × String × List (Option R))) (atc atc1 : ATC R)
    (hP : P atc) (hrun : menuRun atc steps = some atc1) : P atc1 := by
  induction steps generalizing atc with
  | nil =>
    simp only [menuRun, Option.some.injEq] at hrun
    exact hrun ▸ hP
  | cons step later ih =>
    obtain ⟨choice, d, input⟩ := step
    simp only [menuRun] at hrun
    cases hadd : menuAdd choice atc d input with
    | none => simp [hadd] at hrun
    | some r =>
      obtain ⟨outcome, atc2⟩ := r
      simp only [hadd] at hrun
      exact ih atc2 (hstep choice atc d input outcome atc2 hP hadd) hrun

/-- Counterexample to C11 as stated: `addTariff` keeps no uniqueness of destinations.  From
the empty catalog two calls of `ATC::addTariff` for "Rome" store "Rome" twice, in Lab_PPP_3
and in Lab_PPP_2, and in Lab_PPP_2 so do two iterations of the menu choosing case 1. -/
theorem addTariff_breaks_uniqueness :
    ¬ ((((ATC.empty : ATC ℚ).addTariff (.NoDiscountTariff "Rome" 3)).addTariff
        (.FixedDiscountTariff "Rome" 5 2)).tariffs.map TariffStrategy.getDestination).Nodup ∧
    ¬ ((((Lab_PPP_2.ATC.getInstance : Lab_PPP_2.ATC ℚ).addTariff "Rome" 3).addTariff
        "Rome" 4).getTariffs.map Lab_PPP_2.Tariff.cityName).Nodup ∧
    Lab_PPP_2.menuRun (Lab_PPP_2.ATC.getInstance : Lab_PPP_2.ATC ℚ)
        [.addTariff "Rome" (.read 3), .addTariff "Rome" (.read 4)]
      = some ⟨[⟨"Rome", 3⟩, ⟨"Rome", 4⟩], [], 0⟩ := by
  refine ⟨by decide, by decide, by decide⟩

/-- C11, amended: in Lab_PPP_3, starting from the empty catalog, after any sequence of
tariff-adding menu steps (cases 1, 2 and 3 of `main`, each guarded by `doesTariffExist`) no
two stored tariffs have the same destination. -/
theorem menuRun_destinations_nodup {R : Type} [Zero R] [NatCast R] [LE R]
    [DecidableRel (fun a b : R => a ≤ b)] [LT R] [DecidableRel (fun a b : R => a < b)]
    (steps : List (AddChoice × String × List (Option R))) (atc : ATC R)
    (hrun : menuRun (ATC.empty : ATC R) steps = some atc) :
    (atc.tariffs.map TariffStrategy.getDestination).Nodup := by
  refine menuRun_invariant
    (fun a : ATC R => (a.tariffs.map TariffStrategy.getDestination).Nodup) ?_ steps
    ATC.empty atc (by simp [ATC.empty]) hrun
  intro choice atc0 d input outcome atc1 hnodup hadd
  rcases menuAdd_result choice atc0 d input outcome atc1 hadd with hsame | hnew
  · rw [hsame]
    exact hnodup
  · obtain ⟨hex, tariff, hdest, _, hatc⟩ := hnew
    rw [hatc]
    simp only [ATC.addTariff, List.map_append, List.map_cons, List.map_nil]
    refine List.Nodup.append hnodup (List.nodup_singleton _) ?_
    rw [List.disjoint_singleton, hdest]
    intro hmem
    obtain ⟨t, ht, htd⟩ := List.mem_map.mp hmem
    have hyes : doesTariffExistLoop d atc0.tariffs = true :=
      (doesTariffExistLoop_iff d atc0.tariffs).mpr ⟨t, ht, htd⟩
    have hno : doesTariffExistLoop d atc0.tariffs = false := hex
    rw [hno] at hyes
    exact Bool.false_ne_true hyes

/-- The amended C11 on a run of four menu steps, two of which type a destination that is
already stored: the catalog ends with "Paris" and "Rome", once each. -/
theorem menuRun_destinations_nodup_witness :
    menuRun (ATC.empty : ATC ℚ)
        [(.noDiscount, "Paris", [some 10]), (.fixedDiscount, "Paris", [some 20, some 5]),
          (.percentageDiscount, "Rome", [some 0, some 8, some 50]),
          (.noDiscount, "Rome", [some 7])]
      = some (ATC.mk [.NoDiscountTariff "Paris" 10, .PercentageDiscountTariff "Rome" 8 50]) ∧
    ((ATC.mk [.NoDiscountTariff "Paris" (10 : ℚ),
        .PercentageDiscountTariff "Rome" 8 50]).tariffs.map
      TariffStrategy.getDestination).Nodup := by
  have hrun : menuRun (ATC.empty : ATC ℚ)
      [(.noDiscount, "Paris", [some 10]), (.fixedDiscount, "Paris", [some 20, some 5]),
        (.percentageDiscount, "Rome", [some 0, some 8, some 50]),
        (.noDiscount, "Rome", [some 7])]
      = some (ATC.mk [.NoDiscountTariff "Paris" 10, .PercentageDiscountTariff "Rome" 8 50]) := by
    decide
  exact ⟨hrun, menuRun_destinations_nodup _ _ hrun⟩

end Lab_PPP_3

/-! ## Theorems: Lab_PPP_2 -/

namespace Lab_PPP_2

/-- The subscript is defined exactly for the indices inside the vector. -/
theorem vectorSubscript_eq_none_iff {α : Type} (v : List α) (index : Int) :
    vectorSubscript v index = none ↔ index < 0 ∨ (v.length : Int) ≤ index := by
  unfold vectorSubscript
  by_cases h0 : 0 ≤ index
  · simp only [h0, if_true, List.getElem?_eq_none_iff]
    omega
  · simp only [h0, if_false, true_iff]
    omega

/-- Inside its guard `getFarePrice` returns the price of the element the subscript gives. -/
theorem getFarePrice_of_subscript {R : Type} [Zero R] (atc : ATC R) (index : Int)
    (tariff : Tariff R) (h : vectorSubscript atc.getTariffs index = some tariff) :
    atc.getFarePrice index = tariff.price := by
  unfold vectorSubscript ATC.getTariffs at h
  by_cases h0 : 0 ≤ index
  · simp only [h0, if_true] at h
    obtain ⟨hlt, hget⟩ := List.getElem?_eq_some_iff.mp h
    have hguard : 0 ≤ index ∧ index < (atc.tariffs.length : Int) := ⟨h0, by omega⟩
    simp only [ATC.getFarePrice, hguard, and_self, dite_true, List.get_eq_getElem, hget]
  · simp [h0] at h

/-- Outside its guard `getFarePrice` returns `0.0`. -/
theorem getFarePrice_out_of_range {R : Type} [Zero R] (atc : ATC R) (index : Int)
    (h : index < 0 ∨ (atc.getTariffs.length : Int) ≤ index) :
    atc.getFarePrice index = 0 := by
  have hguard : ¬ (0 ≤ index ∧ index < (atc.tariffs.length : Int)) := by
    unfold ATC.getTariffs at h
    omega
  simp [ATC.getFarePrice, hguard]

/-- Counterexample to C12 as stated: a lookup outside `[0, count)` does not fail.  With the
single tariff ("Paris", 3) stored, `getFarePrice` returns the number 0 for the indices 1, 5
and -1, just as it returns the number 3 for the index 0. -/
theorem getFarePrice_outside_returns_zero :
    (ATC.mk [⟨"Paris", (3 : ℚ)⟩] [] 0).getFarePrice 1 = 0 ∧
    (ATC.mk [⟨"Paris", (3 : ℚ)⟩] [] 0).getFarePrice 5 = 0 ∧
    (ATC.mk [⟨"Paris", (3 : ℚ)⟩] [] 0).getFarePrice (-1) = 0 ∧
    (ATC.mk [⟨"Paris", (3 : ℚ)⟩] [] 0).getFarePrice 0 = 3 := by
  refine ⟨by decide, by decide, by decide, by decide⟩

/-- C12, amended: tariff lookup by index never fails: `getFarePrice(i)` returns
`tariffs[i].price` for every index `i` inside `[0, count)`, and for every index outside that
range (negative, or at least the number of tariffs) it returns `0.0`. -/
theorem getFarePrice_spec {R : Type} [Zero R] (atc : ATC R) (index : Int) :
    (∀ (i : Nat) (h : i < atc.getTariffs.length),
      atc.getFarePrice (i : Int) = (atc.getTariffs.get ⟨i, h⟩).price) ∧
    (∀ tariff : Tariff R, vectorSubscript atc.getTariffs index = some tariff →
      atc.getFarePrice index = tariff.price) ∧
    (index < 0 ∨ (atc.getTariffs.length : Int) ≤ index → atc.getFarePrice index = 0) := by
  refine ⟨?_, getFarePrice_of_subscript atc index, getFarePrice_out_of_range atc index⟩
  intro i h
  apply getFarePrice_of_subscript
  simp [vectorSubscript, ATC.getTariffs, List.getElem?_eq_getElem h]

/-- The amended C12 with the tariffs ("Paris", 3) and ("Rome", 4) stored: the index 1 gives
the price 4, the indices 2 and -1 give 0. -/
theorem getFarePrice_spec_witness :
    (ATC.mk [⟨"Paris", (3 : ℚ)⟩, ⟨"Rome", 4⟩] [] 0).getFarePrice 1 = 4 ∧
    (ATC.mk [⟨"Paris", (3 : ℚ)⟩, ⟨"Rome", 4⟩] [] 0).getFarePrice 2 = 0 ∧
    (ATC.mk [⟨"Paris", (3 : ℚ)⟩, ⟨"Rome", 4⟩] [] 0).getFarePrice (-1) = 0 := by
  have key := getFarePrice_spec (ATC.mk [⟨"Paris", (3 : ℚ)⟩, ⟨"Rome", 4⟩] [] 0)
  exact ⟨(key 1).2.1 ⟨"Rome", 4⟩ (by decide), (key 2).2.2 (by decide),
    (key (-1)).2.2 (by decide)⟩

/-- C13: `registerCall` appends exactly one `Call` at the end of `calls`, with the client
name, city name and duration given and with `price = duration * pricePerMinute`, adds
exactly `duration * pricePerMinute` to `totalRevenue`, and leaves the tariffs alone; a
duration of 10 at the price 2.5 records the cost 25 and raises `getTotalRevenue()` by 25. -/
theorem registerCall_appends_call {R : Type} [Add R] [Mul R] (atc : ATC R)
    (clientName cityName : String) (duration pricePerMinute : R) :
    (atc.registerCall clientName cityName duration pricePerMinute).calls
      = atc.calls ++ [⟨clientName, cityName, duration, duration * pricePerMinute⟩] ∧
    (atc.registerCall clientName cityName duration pricePerMinute).calls.length
      = atc.calls.length + 1 ∧
    (atc.registerCall clientName cityName duration pricePerMinute).getTotalRevenue
      = atc.getTotalRevenue + duration * pricePerMinute ∧
    (atc.registerCall clientName cityName duration pricePerMinute).getTariffs
      = atc.getTariffs ∧
    (∀ atcq : ATC ℚ,
      (atcq.registerCall clientName cityName 10 (5 / 2)).calls
        = atcq.calls ++ [⟨clientName, cityName, 10, 25⟩] ∧
      (atcq.registerCall clientName cityName 10 (5 / 2)).getTotalRevenue
        = atcq.getTotalRevenue + 25) := by
  refine ⟨rfl, ?_, rfl, rfl, ?_⟩
  · simp [ATC.registerCall]
  · intro atcq
    have h25 : (10 : ℚ) * (5 / 2) = 25 := by norm_num
    simp [ATC.registerCall, ATC.getTotalRevenue, h25]

/-- The statement of C13 on the state just built: one call of 10 minutes at 2.5. -/
theorem registerCall_appends_call_witness :
    ((ATC.getInstance : ATC ℚ).registerCall "Alice" "Paris" 10 (5 / 2)).calls
      = [⟨"Alice", "Paris", 10, 25⟩] ∧
    ((ATC.getInstance : ATC ℚ).registerCall "Alice" "Paris" 10 (5 / 2)).getTotalRevenue
      = 25 := by
  have key := (registerCall_appends_call (ATC.getInstance : ATC ℚ) "Alice" "Paris" 10
    (5 / 2)).2.2.2.2 ATC.getInstance
  refine ⟨by simpa [ATC.getInstance] using key.1, ?_⟩
  rw [key.2]
  simp [ATC.getInstance, ATC.getTotalRevenue]

end Lab_PPP_2

namespace Lab_PPP_2

/-- The accumulation loop of `getClientTotalCallsCost`, started from any value of
`clientTotal`, ends with that value plus the sum of the prices of the calls of the client
(exact arithmetic). -/
theorem foldl_clientTotal_eq_sum {R : Type} [Field R] (calls : List (Call R))
    (clientName : String) (start : R) :
    calls.foldl
        (fun clientTotal call =>
          if call.clientName = clientName then clientTotal + call.price else clientTotal)
        start
      = start + ((calls.filter (fun call => decide (call.clientName = clientName))).map
          Call.price).sum := by
  induction calls generalizing start with
  | nil => simp
  | cons call rest ih =>
    by_cases h : call.clientName = clientName
    · simp [ih, h, add_assoc]
    · simp [ih, h]

/-- C14: `getClientTotalCallsCost(n)` is the sum of the field `price` over exactly the
recorded calls whose `clientName` equals `n`, and 0 when no recorded call has that client
name; after the calls Alice:10, Alice:20 and Bob:5 it is 30 for "Alice" and 0 for "Carol". -/
theorem getClientTotalCallsCost_sum {R : Type} [Field R] (atc : ATC R) (n : String) :
    atc.getClientTotalCallsCost n
      = ((atc.calls.filter (fun call => decide (call.clientName = n))).map Call.price).sum ∧
    ((∀ call ∈ atc.calls, call.clientName ≠ n) → atc.getClientTotalCallsCost n = 0) ∧
    (∀ (tariffs : List (Tariff R)) (revenue : R) (c1 c2 c3 : String) (d1 d2 d3 : R),
      (ATC.mk tariffs [⟨"Alice", c1, d1, 10⟩, ⟨"Alice", c2, d2, 20⟩, ⟨"Bob", c3, d3, 5⟩]
        revenue).getClientTotalCallsCost "Alice" = 30 ∧
      (ATC.mk tariffs [⟨"Alice", c1, d1, 10⟩, ⟨"Alice", c2, d2, 20⟩, ⟨"Bob", c3, d3, 5⟩]
        revenue).getClientTotalCallsCost "Carol" = 0) := by
  have hsum : ∀ (a : ATC R) (m : String), a.getClientTotalCallsCost m
      = ((a.calls.filter (fun call => decide (call.clientName = m))).map Call.price).sum := by
    intro a m
    simp [ATC.getClientTotalCallsCost, foldl_clientTotal_eq_sum]
  refine ⟨hsum atc n, ?_, ?_⟩
  · intro hnone
    rw [hsum]
    have hfilter : atc.calls.filter (fun call => decide (call.clientName = n)) = [] := by
      rw [List.filter_eq_nil_iff]
      intro call hmem
      simpa using hnone call hmem
    simp [hfilter]
  · intro tariffs revenue c1 c2 c3 d1 d2 d3
    constructor
    · rw [hsum]
      simp [List.filter]
      norm_num
    · rw [hsum]
      simp [List.filter]

/-- The statement of C14 on the ledger built by three calls of `registerCall`: Alice for 10
and for 20, Bob for 5. -/
theorem getClientTotalCallsCost_sum_witness :
    ((((ATC.getInstance : ATC ℚ).registerCall "Alice" "Paris" 10 1).registerCall
        "Alice" "Rome" 10 2).registerCall "Bob" "Paris" 5 1).getClientTotalCallsCost "Alice"
      = 30 ∧
    ((((ATC.getInstance : ATC ℚ).registerCall "Alice" "Paris" 10 1).registerCall
        "Alice" "Rome" 10 2).registerCall "Bob" "Paris" 5 1).getClientTotalCallsCost "Carol"
      = 0 := by
  constructor
  · rw [(getClientTotalCallsCost_sum _ "Alice").1]
    simp [ATC.registerCall, ATC.getInstance, List.filter]
    norm_num
  · exact (getClientTotalCallsCost_sum _ "Carol").2.1
      (by simp [ATC.registerCall, ATC.getInstance])

set_option maxRecDepth 100000 in
/-- Counterexample to C15 as stated, in the arithmetic of `double`: a `registerCall` with
`duration ≥ 0` and `pricePerMinute ≥ 0` can leave `after ≥ before` false.  On the initial
state the arguments 0 and +infinity give the cost NaN and the revenue NaN.  And a NaN
revenue is reached by `registerCall` alone: `2 ^ 1023` minutes at the price 2 overflow to
+infinity, the same call with a negative duration (which nothing rejects) adds -infinity,
and from then on the revenue is NaN, also after the valid call of 10 minutes at the price
2. -/
theorem totalRevenue_not_monotone_in_double :
    ((0 : Binary64) ≤ 0 ∧ (0 : Binary64) ≤ Binary64.infinite false ∧
      ((ATC.getInstance : ATC Binary64).registerCall "Alice" "Paris" 0
        (Binary64.infinite false)).getTotalRevenue = Binary64.nan ∧
      ¬ ((ATC.getInstance : ATC Binary64).getTotalRevenue
        ≤ ((ATC.getInstance : ATC Binary64).registerCall "Alice" "Paris" 0
          (Binary64.infinite false)).getTotalRevenue)) ∧
    ((((ATC.getInstance : ATC Binary64).registerCall "Alice" "Paris"
        (Binary64.finite false 1 1023) 2).registerCall "Alice" "Paris"
        (Binary64.finite true 1 1023) 2).getTotalRevenue = Binary64.nan ∧
      (0 : Binary64) ≤ 10 ∧ (0 : Binary64) ≤ 2 ∧
      ¬ ((((ATC.getInstance : ATC Binary64).registerCall "Alice" "Paris"
          (Binary64.finite false 1 1023) 2).registerCall "Alice" "Paris"
          (Binary64.finite true 1 1023) 2).getTotalRevenue
        ≤ ((((ATC.getInstance : ATC Binary64).registerCall "Alice" "Paris"
          (Binary64.finite false 1 1023) 2).registerCall "Alice" "Paris"
          (Binary64.finite true 1 1023) 2).registerCall "Bob" "Paris" 10
          2).getTotalRevenue)) := by
  decide

/-- C15, amended: for finite values (the carrier is a linear ordered field: no infinity, no
NaN) total revenue does not decrease under valid inputs: a `registerCall` with
`duration ≥ 0` and `pricePerMinute ≥ 0` on a state with a finite `totalRevenue` leaves
`getTotalRevenue()` at least as large as it was, and no other operation (`addTariff`,
`getFarePrice`, `getTotalRevenue`, `getClientTotalCallsCost`, `getTariffs`) changes it. -/
theorem totalRevenue_monotone {R : Type} [LinearOrderedField R] (atc : ATC R)
    (clientName cityName : String) (duration pricePerMinute : R)
    (hd : 0 ≤ duration) (hp : 0 ≤ pricePerMinute) :
    atc.getTotalRevenue
      ≤ (atc.registerCall clientName cityName duration pricePerMinute).getTotalRevenue ∧
    (∀ (city : String) (price : R),
      (atc.addTariff city price).getTotalRevenue = atc.getTotalRevenue) ∧
    (∀ op : Operation R, (∀ (c1 c2 : String) (d p : R), op ≠ .registerCall c1 c2 d p) →
      (atc.perform op).getTotalRevenue = atc.getTotalRevenue) := by
  refine ⟨?_, fun _ _ => rfl, ?_⟩
  · simp only [ATC.registerCall, ATC.getTotalRevenue]
    exact le_add_of_nonneg_right (mul_nonneg hd hp)
  · intro op hop
    cases op with
    | registerCall c1 c2 d p => exact absurd rfl (hop c1 c2 d p)
    | addTariff city price => rfl
    | getFarePrice index => rfl
    | getTotalRevenue => rfl
    | getClientTotalCallsCost name => rfl
    | getTariffs => rfl

/-- The amended C15 for a call of 10 minutes at the price 2 after a revenue of 7. -/
theorem totalRevenue_monotone_witness :
    (0 : ℚ) ≤ 10 ∧ (0 : ℚ) ≤ 2 ∧
    (ATC.mk [] [] (7 : ℚ)).getTotalRevenue
      ≤ ((ATC.mk [] [] (7 : ℚ)).registerCall "Alice" "Paris" 10 2).getTotalRevenue :=
  ⟨by norm_num, by norm_num,
    (totalRevenue_monotone (ATC.mk [] [] (7 : ℚ)) "Alice" "Paris" 10 2 (by norm_num)
      (by norm_num)).1⟩

/-- C17: stored tariffs and call records are never changed or removed: after any operation
the tariff list is the list before followed by what was appended, and so is the list of
calls; `registerCall` leaves the tariff list unchanged and `addTariff` leaves the calls and
`totalRevenue` unchanged. -/
theorem perform_keeps_records {R : Type} [Add R] [Mul R] (atc : ATC R) (op : Operation R) :
    (∃ appended : List (Tariff R), (atc.perform op).tariffs = atc.tariffs ++ appended) ∧
    (∃ appended : List (Call R), (atc.perform op).calls = atc.calls ++ appended) ∧
    (∀ (clientName cityName : String) (duration pricePerMinute : R),
      (atc.registerCall clientName cityName duration pricePerMinute).tariffs
        = atc.tariffs) ∧
    (∀ (cityName : String) (price : R),
      (atc.addTariff cityName price).calls = atc.calls ∧
      (atc.addTariff cityName price).totalRevenue = atc.totalRevenue) := by
  refine ⟨?_, ?_, fun _ _ _ _ => rfl, fun _ _ => ⟨rfl, rfl⟩⟩
  · cases op with
    | addTariff city price => exact ⟨[⟨city, price⟩], rfl⟩
    | registerCall c1 c2 d p => exact ⟨[], by simp [ATC.perform, ATC.registerCall]⟩
    | getFarePrice index => exact ⟨[], by simp [ATC.perform]⟩
    | getTotalRevenue => exact ⟨[], by simp [ATC.perform]⟩
    | getClientTotalCallsCost name => exact ⟨[], by simp [ATC.perform]⟩
    | getTariffs => exact ⟨[], by simp [ATC.perform]⟩
  · cases op with
    | addTariff city price => exact ⟨[], by simp [ATC.perform, ATC.addTariff]⟩
    | registerCall c1 c2 d p => exact ⟨[⟨c1, c2, d, d * p⟩], rfl⟩
    | getFarePrice index => exact ⟨[], by simp [ATC.perform]⟩
    | getTotalRevenue => exact ⟨[], by simp [ATC.perform]⟩
    | getClientTotalCallsCost name => exact ⟨[], by simp [ATC.perform]⟩
    | getTariffs => exact ⟨[], by simp [ATC.perform]⟩

end Lab_PPP_2

namespace Lab_PPP_2

/-- C16, the code at an index outside the vector: `getFarePrice` returns 0, and a
`registerCall` at that price would record one call of cost 0 and leave `totalRevenue` as it
is; but the menu step reads `getTariffs()[index].cityName` first, a subscript outside the
vector, so the step has no defined result and no call is recorded by it. -/
theorem registerCallStep_outside_undefined {R : Type} [Field R] (atc : ATC R)
    (clientName : String) (index : Int) (duration : R)
    (h : index < 0 ∨ (atc.getTariffs.length : Int) ≤ index) :
    atc.getFarePrice index = 0 ∧
    (∀ cityName : String,
      (atc.registerCall clientName cityName duration (atc.getFarePrice index)).calls
        = atc.calls ++ [⟨clientName, cityName, duration, 0⟩] ∧
      (atc.registerCall clientName cityName duration (atc.getFarePrice index)).getTotalRevenue
        = atc.getTotalRevenue) ∧
    vectorSubscript atc.getTariffs index = none ∧
    registerCallStep atc clientName (index + 1) duration = none := by
  have hzero := getFarePrice_out_of_range atc index h
  have hsub := (vectorSubscript_eq_none_iff atc.getTariffs index).mpr h
  refine ⟨hzero, ?_, hsub, ?_⟩
  · intro cityName
    simp [ATC.registerCall, ATC.getTotalRevenue, hzero]
  · have hidx : index + 1 - 1 = index := by omega
    simp only [registerCallStep, hidx, hsub]

/-- The code at the failing input of C16: one tariff ("Paris", 3) stored, revenue 7, and
the tariff number 5 typed for a call of 10 minutes. -/
theorem registerCallStep_outside_undefined_witness :
    (ATC.mk [⟨"Paris", (3 : ℚ)⟩] [] 7).getFarePrice 4 = 0 ∧
    vectorSubscript (ATC.mk [⟨"Paris", (3 : ℚ)⟩] [] 7).getTariffs 4 = none ∧
    registerCallStep (ATC.mk [⟨"Paris", (3 : ℚ)⟩] [] 7) "Alice" 5 10 = none := by
  have key := registerCallStep_outside_undefined (ATC.mk [⟨"Paris", (3 : ℚ)⟩] [] 7)
    "Alice" 4 10 (by decide)
  exact ⟨key.1, key.2.2.1, key.2.2.2⟩

/-- C19, the code: `printTariffs` returns 0 exactly for an empty tariff list, and then case 3
of the menu refuses the registration and leaves the state as it is; for a list with at least
one tariff the function reaches its end without a `return` statement, so it returns no value
at all, and the guard `printTariffs() == 0` of case 3 has no defined value either. -/
theorem printTariffs_value {R : Type} [Zero R] [Add R] [Mul R] (atc : ATC R) :
    (atc.printTariffs = some 0 ↔ atc.tariffs = []) ∧
    (atc.tariffs = [] → ∀ (clientName : String) (tariffNumber : Int) (duration : R),
      menuCase3 atc clientName tariffNumber duration = some atc) ∧
    (atc.tariffs ≠ [] → atc.printTariffs = none ∧
      ∀ (clientName : String) (tariffNumber : Int) (duration : R),
        menuCase3 atc clientName tariffNumber duration = none) := by
  cases hts : atc.tariffs with
  | nil => simp [ATC.printTariffs, menuCase3, hts]
  | cons tariff rest => simp [ATC.printTariffs, menuCase3, hts]

/-- The code at the failing input of C19: with the single tariff ("Paris", 3) stored,
`printTariffs` returns no value and case 3 has no defined result, whereas both are defined
on the state without tariffs. -/
theorem printTariffs_value_witness :
    (ATC.mk [⟨"Paris", (3 : ℚ)⟩] [] 0).printTariffs = none ∧
    menuCase3 (ATC.mk [⟨"Paris", (3 : ℚ)⟩] [] 0) "Alice" 1 10 = none ∧
    (ATC.getInstance : ATC ℚ).printTariffs = some 0 ∧
    menuCase3 (ATC.getInstance : ATC ℚ) "Alice" 1 10 = some ATC.getInstance := by
  have key1 := printTariffs_value (ATC.mk [⟨"Paris", (3 : ℚ)⟩] [] 0)
  have key2 := printTariffs_value (ATC.getInstance : ATC ℚ)
  exact ⟨(key1.2.2 (by simp)).1, (key1.2.2 (by simp)).2 "Alice" 1 10,
    key2.1.mpr rfl, key2.2.1 rfl "Alice" 1 10⟩

/-- One operation keeps the equality between `totalRevenue` and the sum of the recorded
prices. -/
theorem perform_keeps_revenue_sum {R : Type} [Field R] (atc : ATC R) (op : Operation R)
    (h : atc.totalRevenue = (atc.calls.map Call.price).sum) :
    (atc.perform op).totalRevenue = ((atc.perform op).calls.map Call.price).sum := by
  cases op with
  | registerCall c1 c2 d p => simp [ATC.perform, ATC.registerCall, h]
  | addTariff city price => simpa [ATC.perform, ATC.addTariff] using h
  | getFarePrice index => simpa [ATC.perform] using h
  | getTotalRevenue => simpa [ATC.perform] using h
  | getClientTotalCallsCost name => simpa [ATC.perform] using h
  | getTariffs => simpa [ATC.perform] using h

/-- Any sequence of operations keeps the equality between `totalRevenue` and the sum of the
recorded prices. -/
theorem foldl_perform_keeps_revenue_sum {R : Type} [Field R] (ops : List (Operation R))
    (atc : ATC R) (h : atc.totalRevenue = (atc.calls.map Call.price).sum) :
    (ops.foldl ATC.perform atc).totalRevenue
      = ((ops.foldl ATC.perform atc).calls.map Call.price).sum := by
  induction ops generalizing atc with
  | nil => simpa using h
  | cons op rest ih => exact ih (atc.perform op) (perform_keeps_revenue_sum atc op h)

/-- Over non-negative prices the prices of the calls of one client sum to at most the sum of
all prices. -/
theorem sum_client_prices_le {R : Type} [LinearOrderedField R] (calls : List (Call R))
    (clientName : String) (hpos : ∀ call ∈ calls, 0 ≤ call.price) :
    ((calls.filter (fun call => decide (call.clientName = clientName))).map Call.price).sum
      ≤ (calls.map Call.price).sum := by
  induction calls with
  | nil => simp
  | cons call rest ih =>
    have hrest := ih (fun c hc => hpos c (List.mem_cons_of_mem _ hc))
    have hcall := hpos call (List.mem_cons_self _ _)
    by_cases h : call.clientName = clientName
    · simp only [List.filter, h, decide_True, List.map_cons, List.sum_cons]
      exact add_le_add_left hrest _
    · simp only [List.filter, h, decide_False, List.map_cons, List.sum_cons]
      exact le_trans hrest (le_add_of_nonneg_left hcall)

/-- C20: in every state reached from the initial state by a sequence of operations
(`addTariff`, `registerCall`, and the member functions that change nothing),
`getTotalRevenue()` equals the sum of the field `price` over all recorded calls; hence, when
all recorded prices are non-negative, `getClientTotalCallsCost(n) ≤ getTotalRevenue()` for
every client name `n`. -/
theorem totalRevenue_eq_sum_prices {R : Type} [LinearOrderedField R]
    (ops : List (Operation R)) :
    (ops.foldl ATC.perform (ATC.getInstance : ATC R)).getTotalRevenue
      = ((ops.foldl ATC.perform (ATC.getInstance : ATC R)).calls.map Call.price).sum ∧
    ((∀ call ∈ (ops.foldl ATC.perform (ATC.getInstance : ATC R)).calls, 0 ≤ call.price) →
      ∀ n : String,
        (ops.foldl ATC.perform (ATC.getInstance : ATC R)).getClientTotalCallsCost n
          ≤ (ops.foldl ATC.perform (ATC.getInstance : ATC R)).getTotalRevenue) := by
  have hsum := foldl_perform_keeps_revenue_sum ops (ATC.getInstance : ATC R)
    (by simp [ATC.getInstance])
  refine ⟨hsum, ?_⟩
  intro hpos n
  rw [(getClientTotalCallsCost_sum _ n).1]
  simp only [ATC.getTotalRevenue]
  rw [hsum]
  exact sum_client_prices_le _ n hpos

/-- The statement of C20 after the operations: add ("Paris", 2), Alice calls for 10 minutes,
Bob for 5 minutes, and a lookup: the revenue 30 is the sum 20 + 10 of the recorded prices,
and Alice's total 20 is below it. -/
theorem totalRevenue_eq_sum_prices_witness :
    ([Operation.addTariff "Paris" (2 : ℚ), .registerCall "Alice" "Paris" 10 2,
        .registerCall "Bob" "Paris" 5 2, .getFarePrice 0].foldl ATC.perform
      ATC.getInstance).getTotalRevenue = 30 ∧
    ([Operation.addTariff "Paris" (2 : ℚ), .registerCall "Alice" "Paris" 10 2,
        .registerCall "Bob" "Paris" 5 2, .getFarePrice 0].foldl ATC.perform
      ATC.getInstance).getClientTotalCallsCost "Alice" ≤ 30 := by
  have key := totalRevenue_eq_sum_prices [Operation.addTariff "Paris" (2 : ℚ),
    .registerCall "Alice" "Paris" 10 2, .registerCall "Bob" "Paris" 5 2, .getFarePrice 0]
  have hrev : ([Operation.addTariff "Paris" (2 : ℚ), .registerCall "Alice" "Paris" 10 2,
        .registerCall "Bob" "Paris" 5 2, .getFarePrice 0].foldl ATC.perform
      ATC.getInstance).getTotalRevenue = 30 := by
    rw [key.1]
    norm_num [ATC.perform, ATC.registerCall, ATC.addTariff, ATC.getInstance]
  refine ⟨hrev, ?_⟩
  rw [← hrev]
  apply key.2
  intro call hcall
  simp only [List.foldl, ATC.perform, ATC.registerCall, ATC.addTariff, ATC.getInstance,
    List.nil_append, List.cons_append, List.mem_cons, List.mem_singleton,
    List.not_mem_nil, or_false] at hcall
  rcases hcall with h | h <;> rw [h] <;> norm_num

end Lab_PPP_2

namespace Lab_PPP_3

/-- The amounts of a tariff appended by a tariff-adding menu step all passed `inputNumber`:
neither the cost, nor the discount, nor the percentage is `≤ 0`. -/
theorem menuAdd_result_amounts {R : Type} [Zero R] [NatCast R] [LE R]
    [DecidableRel (fun a b : R => a ≤ b)] [LT R] [DecidableRel (fun a b : R => a < b)]
    (choice : AddChoice) (atc : ATC R) (d : String) (input : List (Option R))
    (outcome : MenuOutcome) (atc1 : ATC R)
    (h : menuAdd choice atc d input = some (outcome, atc1)) :
    atc1 = atc ∨
      ∃ tariff : TariffStrategy R, atc1 = atc.addTariff tariff ∧
        ¬ tariff.getOriginalCost ≤ 0 ∧
        (∀ (dest : String) (c disc : R),
          tariff = .FixedDiscountTariff dest c disc → ¬ disc ≤ 0) ∧
        (∀ (dest : String) (c p : R),
          tariff = .PercentageDiscountTariff dest c p → ¬ p ≤ 0) := by
  cases choice with
  | noDiscount =>
    rcases menuCase1_result atc d input outcome atc1 h with
      ⟨_, hsame⟩ | ⟨_, _, cost, hcost, hnew⟩
    · exact Or.inl hsame
    · refine Or.inr ⟨.NoDiscountTariff d cost, hnew, hcost, ?_, ?_⟩
      · intro dest c disc heq
        cases heq
      · intro dest c p heq
        cases heq
  | fixedDiscount =>
    rcases menuCase2_result atc d input outcome atc1 h with
      ⟨_, hsame⟩ | ⟨_, _, cost, discount, hcost, hdisc, _, hnew⟩
    · exact Or.inl hsame
    · refine Or.inr ⟨.FixedDiscountTariff d cost discount, hnew, hcost, ?_, ?_⟩
      · intro dest c disc heq
        cases heq
        exact hdisc
      · intro dest c p heq
        cases heq
  | percentageDiscount =>
    rcases menuCase3_result atc d input outcome atc1 h with
      ⟨_, hsame⟩ | ⟨_, _, cost, percentage, hcost, hperc, _, hnew⟩
    · exact Or.inl hsame
    · refine Or.inr ⟨.PercentageDiscountTariff d cost percentage, hnew, hcost, ?_, ?_⟩
      · intro dest c disc heq
        cases heq
      · intro dest c p heq
        cases heq
        exact hperc

/-- A value `≤ 0` typed at the first numeric prompt of a tariff-adding menu step is
discarded: the step goes on as if it had not been typed. -/
theorem menuAdd_skips_rejected {R : Type} [Zero R] [NatCast R] [LE R]
    [DecidableRel (fun a b : R => a ≤ b)] [LT R] [DecidableRel (fun a b : R => a < b)]
    (choice : AddChoice) (atc : ATC R) (d : String) (value : R) (rest : List (Option R))
    (h : value ≤ 0) :
    menuAdd choice atc d (some value :: rest) = menuAdd choice atc d rest := by
  have hskip : inputNumber (some value :: rest) = inputNumber rest := by
    simp [inputNumber, h]
  cases choice <;> simp only [menuAdd, menuCase1, menuCase2, menuCase3, hskip]

end Lab_PPP_3

namespace Lab_PPP_2

/-- Case 3 of the menu never touches the tariffs, whatever `printTariffs` gives back. -/
theorem menuCase3Built_tariffs {R : Type} [Zero R] [Add R] [Mul R] (returned : Option Int)
    (atc : ATC R) (clientName : String) (tariffNumber : Int) (duration : R) (atc1 : ATC R)
    (h : menuCase3Built returned atc clientName tariffNumber duration = some atc1) :
    atc1.tariffs = atc.tariffs := by
  unfold menuCase3Built at h
  simp only at h
  split at h
  · exact absurd h (by simp)
  · rename_i value _
    by_cases h0 : value = 0
    · simp only [h0, if_true, Option.some.injEq] at h
      rw [← h]
    · simp only [h0, if_false] at h
      unfold registerCallStep at h
      cases hsub : vectorSubscript atc.getTariffs (tariffNumber - 1) with
      | none => simp [hsub] at h
      | some tariff =>
        simp only [hsub, Option.some.injEq] at h
        rw [← h]
        rfl

/-- With no value given back by `printTariffs`, the built case 3 is the case 3 of the
source read strictly. -/
theorem menuCase3Built_none {R : Type} [Zero R] [Add R] [Mul R] (atc : ATC R)
    (clientName : String) (tariffNumber : Int) (duration : R) :
    menuCase3Built none atc clientName tariffNumber duration
      = menuCase3 atc clientName tariffNumber duration := by
  unfold menuCase3Built menuCase3
  cases hshown : atc.printTariffs with
  | none => rfl
  | some value =>
    by_cases h0 : value = 0
    · simp [h0]
    · simp [h0]

/-- Case 1 of Lab_PPP_2 keeps every stored price non-negative, whatever the extraction
did. -/
theorem menuCase1_prices_nonneg {R : Type} [LinearOrderedField R] (atc : ATC R)
    (cityName : String) (priceInput : Extraction R)
    (hpos : ∀ tariff ∈ atc.tariffs, 0 ≤ tariff.price) :
    ∀ tariff ∈ (menuCase1 atc cityName priceInput).tariffs, 0 ≤ tariff.price := by
  unfold menuCase1
  by_cases hneg : priceInput.result < 0
  · simpa [hneg] using hpos
  · intro tariff hmem
    simp only [hneg, if_false, ATC.addTariff, List.mem_append, List.mem_singleton] at hmem
    rcases hmem with hold | hnew
    · exact hpos tariff hold
    · rw [hnew]
      exact not_lt.mp hneg

/-- A run of the menu of Lab_PPP_2 keeps every stored price non-negative, from either state
of the stream. -/
theorem menuRunFrom_prices_nonneg {R : Type} [LinearOrderedField R]
    (commands : List (MenuCommand R)) (streamFailed : Bool) (atc atc1 : ATC R)
    (hpos : ∀ tariff ∈ atc.tariffs, 0 ≤ tariff.price)
    (hrun : menuRunFrom streamFailed atc commands = some atc1) :
    ∀ tariff ∈ atc1.tariffs, 0 ≤ tariff.price := by
  induction commands generalizing atc streamFailed with
  | nil =>
    simp only [menuRunFrom, Option.some.injEq] at hrun
    rw [← hrun]
    exact hpos
  | cons command later ih =>
    simp only [menuRunFrom] at hrun
    cases hstep : menuStep streamFailed atc command with
    | none => simp [hstep] at hrun
    | some r =>
      obtain ⟨failed1, atc2⟩ := r
      simp only [hstep] at hrun
      refine ih failed1 atc2 ?_ hrun
      unfold menuStep at hstep
      cases streamFailed with
      | true =>
        simp only [if_true, Option.some.injEq, Prod.mk.injEq] at hstep
        rw [← hstep.2]
        exact menuCase1_prices_nonneg atc "" (.failure 0) hpos
      | false =>
        simp only [Bool.false_eq_true, if_false] at hstep
        cases command with
        | addTariff cityName priceInput =>
          simp only [Option.some.injEq, Prod.mk.injEq] at hstep
          rw [← hstep.2]
          exact menuCase1_prices_nonneg atc cityName priceInput hpos
        | registerCall clientName tariffNumber duration returned =>
          simp only at hstep
          cases hcase : menuCase3Built returned atc clientName tariffNumber duration with
          | none => simp [hcase] at hstep
          | some atc3 =>
            simp only [hcase, Option.some.injEq, Prod.mk.injEq] at hstep
            rw [← hstep.2, menuCase3Built_tariffs returned atc clientName tariffNumber
              duration atc3 hcase]
            exact hpos

/-- Counterexample to C18 as stated: in Lab_PPP_3 a negative value typed at a prompt does
not leave the catalog unchanged at the end of the menu step.  With the cost -3 typed and
then 10, case 1 ends with the tariff ("Paris", 10) added; with the discount -2 typed and
then 4, case 2 ends with the tariff ("Rome", 10, 4) added. -/
theorem negative_entry_step_adds_tariff :
    Lab_PPP_3.menuAdd .noDiscount (Lab_PPP_3.ATC.empty : Lab_PPP_3.ATC ℚ) "Paris"
        [some (-3), some 10]
      = some (.added, Lab_PPP_3.ATC.mk [.NoDiscountTariff "Paris" 10]) ∧
    Lab_PPP_3.menuAdd .fixedDiscount (Lab_PPP_3.ATC.empty : Lab_PPP_3.ATC ℚ) "Rome"
        [some 10, some (-2), some 4]
      = some (.added, Lab_PPP_3.ATC.mk [.FixedDiscountTariff "Rome" 10 4]) := by
  refine ⟨by decide, by decide⟩

/-- C18, amended: a negative cost, discount or price never becomes part of a tariff.  In
Lab_PPP_2 a price `< 0` in case 1, typed or left by a failed extraction, leaves the switch
before `addTariff` and the catalog is unchanged; any other value of `price` is added.  In
Lab_PPP_3 a negative value typed at a numeric prompt is discarded by `inputNumber`, which
asks again: the step is not abandoned, it goes on as if the value had not been typed.
Hence every tariff in a catalog reached by menu iterations, in either program, has a base
cost `≥ 0`; in Lab_PPP_3 cost, discount and percentage are positive. -/
theorem negative_amounts_never_stored {R : Type} [LinearOrderedField R] :
    (∀ (atc : ATC R) (cityName : String) (priceInput : Extraction R),
      (priceInput.result < 0 → menuCase1 atc cityName priceInput = atc) ∧
      (¬ priceInput.result < 0 →
        menuCase1 atc cityName priceInput = atc.addTariff cityName priceInput.result)) ∧
    (∀ (value : R) (rest : List (Option R)), value < 0 →
      Lab_PPP_3.inputNumber (some value :: rest) = Lab_PPP_3.inputNumber rest) ∧
    (∀ (choice : Lab_PPP_3.AddChoice) (atc3 : Lab_PPP_3.ATC R) (d : String) (value : R)
      (rest : List (Option R)), value < 0 →
      Lab_PPP_3.menuAdd choice atc3 d (some value :: rest)
        = Lab_PPP_3.menuAdd choice atc3 d rest) ∧
    (∀ (steps : List (Lab_PPP_3.AddChoice × String × List (Option R)))
      (atc3 : Lab_PPP_3.ATC R),
      Lab_PPP_3.menuRun (Lab_PPP_3.ATC.empty : Lab_PPP_3.ATC R) steps = some atc3 →
      (∀ tariff ∈ atc3.tariffs, 0 < tariff.getOriginalCost) ∧
      (∀ (dest : String) (c disc : R),
        Lab_PPP_3.TariffStrategy.FixedDiscountTariff dest c disc ∈ atc3.tariffs → 0 < disc) ∧
      (∀ (dest : String) (c p : R),
        Lab_PPP_3.TariffStrategy.PercentageDiscountTariff dest c p ∈ atc3.tariffs → 0 < p)) ∧
    (∀ (steps : List (Lab_PPP_3.AddChoice × String × List (Option R)))
      (atc3 : Lab_PPP_3.ATC R),
      Lab_PPP_3.menuRun (Lab_PPP_3.ATC.empty : Lab_PPP_3.ATC R) steps = some atc3 →
      ∀ tariff ∈ atc3.tariffs, 0 ≤ tariff.getOriginalCost) ∧
    (∀ (commands : List (MenuCommand R)) (atc : ATC R),
      menuRun (ATC.getInstance : ATC R) commands = some atc →
      ∀ tariff ∈ atc.tariffs, 0 ≤ tariff.price) := by
  have hinv : ∀ (steps : List (Lab_PPP_3.AddChoice × String × List (Option R)))
      (atc3 : Lab_PPP_3.ATC R),
      Lab_PPP_3.menuRun (Lab_PPP_3.ATC.empty : Lab_PPP_3.ATC R) steps = some atc3 →
      (∀ tariff ∈ atc3.tariffs, 0 < tariff.getOriginalCost) ∧
      (∀ (dest : String) (c disc : R),
        Lab_PPP_3.TariffStrategy.FixedDiscountTariff dest c disc ∈ atc3.tariffs → 0 < disc) ∧
      (∀ (dest : String) (c p : R),
        Lab_PPP_3.TariffStrategy.PercentageDiscountTariff dest c p ∈ atc3.tariffs →
          0 < p) := by
    intro steps atc3 hrun
    refine Lab_PPP_3.menuRun_invariant
      (fun a : Lab_PPP_3.ATC R =>
        (∀ tariff ∈ a.tariffs, 0 < tariff.getOriginalCost) ∧
        (∀ (dest : String) (c disc : R),
          Lab_PPP_3.TariffStrategy.FixedDiscountTariff dest c disc ∈ a.tariffs → 0 < disc) ∧
        (∀ (dest : String) (c p : R),
          Lab_PPP_3.TariffStrategy.PercentageDiscountTariff dest c p ∈ a.tariffs → 0 < p))
      ?_ steps Lab_PPP_3.ATC.empty atc3 (by simp [Lab_PPP_3.ATC.empty]) hrun
    intro choice atc0 d input outcome atc1 hP hadd
    rcases Lab_PPP_3.menuAdd_result_amounts choice atc0 d input outcome atc1 hadd with
      hsame | ⟨tariff, hnew, hcost, hdisc, hperc⟩
    · rw [hsame]
      exact hP
    · obtain ⟨h1, h2, h3⟩ := hP
      rw [hnew]
      simp only [Lab_PPP_3.ATC.addTariff, List.mem_append, List.mem_singleton]
      refine ⟨?_, ?_, ?_⟩
      · rintro t (hold | heq)
        · exact h1 t hold
        · rw [heq]
          exact not_le.mp hcost
      · rintro dest c disc (hold | heq)
        · exact h2 dest c disc hold
        · exact not_le.mp (hdisc dest c disc heq.symm)
      · rintro dest c p (hold | heq)
        · exact h3 dest c p hold
        · exact not_le.mp (hperc dest c p heq.symm)
  refine ⟨?_, ?_, ?_, hinv, ?_, ?_⟩
  · intro atc cityName priceInput
    constructor
    · intro hneg
      simp [menuCase1, hneg]
    · intro hneg
      simp [menuCase1, hneg]
  · intro value rest hneg
    simp [Lab_PPP_3.inputNumber, hneg.le]
  · intro choice atc3 d value rest hneg
    exact Lab_PPP_3.menuAdd_skips_rejected choice atc3 d value rest hneg.le
  · intro steps atc3 hrun tariff hmem
    exact ((hinv steps atc3 hrun).1 tariff hmem).le
  · intro commands atc hrun
    exact menuRunFrom_prices_nonneg commands false ATC.getInstance atc
      (by simp [ATC.getInstance]) hrun

/-- The amended C18 at concrete inputs.  In Lab_PPP_2 the typed price -3 and the value -7
left by a failed extraction leave the catalog unchanged.  In the run that adds ("Paris", 2),
registers a call of Alice (the build giving back 1 from `printTariffs`), then types "abc"
as the price of "Rome" and goes on, the failed extraction adds ("Rome", 0), the next
iteration adds ("", 0), and all prices are `≥ 0`.  In Lab_PPP_3 the cost -3 is discarded
before the cost 10 is taken. -/
theorem negative_amounts_never_stored_witness :
    menuCase1 (ATC.getInstance : ATC ℚ) "Paris" (.read (-3)) = ATC.getInstance ∧
    menuCase1 (ATC.getInstance : ATC ℚ) "Paris" (.failure (-7)) = ATC.getInstance ∧
    menuRun (ATC.getInstance : ATC ℚ)
        [.addTariff "Paris" (.read 2), .registerCall "Alice" 1 10 (some 1),
          .addTariff "Rome" (.failure 0), .addTariff "Oslo" (.read 5)]
      = some ⟨[⟨"Paris", 2⟩, ⟨"Rome", 0⟩, ⟨"", 0⟩], [⟨"Alice", "Paris", 10, 20⟩], 20⟩ ∧
    (∀ tariff ∈ (ATC.mk [⟨"Paris", (2 : ℚ)⟩, ⟨"Rome", 0⟩, ⟨"", 0⟩]
        [⟨"Alice", "Paris", 10, 20⟩] 20).tariffs,
      0 ≤ tariff.price) ∧
    Lab_PPP_3.menuAdd .noDiscount (Lab_PPP_3.ATC.empty : Lab_PPP_3.ATC ℚ) "Paris"
        [some (-3), some 10]
      = Lab_PPP_3.menuAdd .noDiscount (Lab_PPP_3.ATC.empty : Lab_PPP_3.ATC ℚ) "Paris"
        [some 10] := by
  have key := negative_amounts_never_stored (R := ℚ)
  have hrun : menuRun (ATC.getInstance : ATC ℚ)
      [.addTariff "Paris" (.read 2), .registerCall "Alice" 1 10 (some 1),
        .addTariff "Rome" (.failure 0), .addTariff "Oslo" (.read 5)]
      = some ⟨[⟨"Paris", 2⟩, ⟨"Rome", 0⟩, ⟨"", 0⟩], [⟨"Alice", "Paris", 10, 20⟩], 20⟩ := by
    norm_num [menuRun, menuRunFrom, menuStep, menuCase1, menuCase3Built, registerCallStep,
      vectorSubscript, ATC.printTariffs, ATC.getTariffs, ATC.getFarePrice, ATC.registerCall,
      ATC.addTariff, ATC.getInstance, Extraction.result, Extraction.fail]
  exact ⟨(key.1 ATC.getInstance "Paris" (.read (-3))).1 (by norm_num [Extraction.result]),
    (key.1 ATC.getInstance "Paris" (.failure (-7))).1 (by norm_num [Extraction.result]),
    hrun, key.2.2.2.2.2 _ _ hrun,
    key.2.2.1 .noDiscount Lab_PPP_3.ATC.empty "Paris" (-3) [some 10] (by norm_num)⟩

end Lab_PPP_2

namespace Lab_PPP_3

/-- A sum of values that all lie between `lo` and `hi` lies between `lo` and `hi` taken as
many times as there are values. -/
theorem sum_between {R : Type} [LinearOrderedField R] (values : List R) (lo hi : R)
    (h : ∀ x ∈ values, lo ≤ x ∧ x ≤ hi) :
    (values.length : R) * lo ≤ values.sum ∧ values.sum ≤ (values.length : R) * hi := by
  induction values with
  | nil => simp
  | cons x rest ih =>
    obtain ⟨hlo, hhi⟩ := ih (fun y hy => h y (List.mem_cons_of_mem _ hy))
    obtain ⟨hx1, hx2⟩ := h x (List.mem_cons_self _ _)
    simp only [List.length_cons, List.sum_cons, Nat.cast_add, Nat.cast_one]
    constructor <;> nlinarith

/-- A catalog that is not empty has a tariff of smallest and a tariff of largest discounted
cost. -/
theorem exists_min_max_getCost {R : Type} [LinearOrderedField R]
    (tariffs : List (TariffStrategy R)) (hne : tariffs ≠ []) :
    ∃ tmin ∈ tariffs, ∃ tmax ∈ tariffs,
      ∀ t ∈ tariffs, tmin.getCost ≤ t.getCost ∧ t.getCost ≤ tmax.getCost := by
  induction tariffs with
  | nil => exact absurd rfl hne
  | cons t rest ih =>
    cases hrest : rest with
    | nil =>
      refine ⟨t, List.mem_cons_self _ _, t, List.mem_cons_self _ _, ?_⟩
      intro u hu
      simp only [List.mem_singleton] at hu
      rw [hu]
      exact ⟨le_rfl, le_rfl⟩
    | cons r more =>
      obtain ⟨tmin, hmin, tmax, hmax, hall⟩ := ih (by simp [hrest])
      rw [hrest] at hmin hmax hall
      have hlow : ∃ m ∈ t :: r :: more, ∀ u ∈ t :: r :: more, m.getCost ≤ u.getCost := by
        rcases le_total t.getCost tmin.getCost with hle | hle
        · refine ⟨t, List.mem_cons_self _ _, ?_⟩
          intro u hu
          rcases List.mem_cons.mp hu with hut | hur
          · rw [hut]
          · exact le_trans hle (hall u hur).1
        · refine ⟨tmin, List.mem_cons_of_mem _ hmin, ?_⟩
          intro u hu
          rcases List.mem_cons.mp hu with hut | hur
          · rw [hut]
            exact hle
          · exact (hall u hur).1
      have hhigh : ∃ m ∈ t :: r :: more, ∀ u ∈ t :: r :: more, u.getCost ≤ m.getCost := by
        rcases le_total tmax.getCost t.getCost with hle | hle
        · refine ⟨t, List.mem_cons_self _ _, ?_⟩
          intro u hu
          rcases List.mem_cons.mp hu with hut | hur
          · rw [hut]
          · exact le_trans (hall u hur).2 hle
        · refine ⟨tmax, List.mem_cons_of_mem _ hmax, ?_⟩
          intro u hu
          rcases List.mem_cons.mp hu with hut | hur
          · rw [hut]
            exact hle
          · exact (hall u hur).2
      obtain ⟨lo, hlo, hlo_all⟩ := hlow
      obtain ⟨hi, hhi, hhi_all⟩ := hhigh
      exact ⟨lo, hlo, hi, hhi, fun u hu => ⟨hlo_all u hu, hhi_all u hu⟩⟩

/-- The average of a catalog that is not empty lies between any lower and any upper bound of
its discounted costs (exact arithmetic). -/
theorem calculateAverageCost_between {R : Type} [LinearOrderedField R] (atc : ATC R)
    (hne : atc.tariffs ≠ []) (lo hi : R)
    (h : ∀ t ∈ atc.tariffs, lo ≤ t.getCost ∧ t.getCost ≤ hi) :
    lo ≤ atc.calculateAverageCost ∧ atc.calculateAverageCost ≤ hi := by
  have hfalse : atc.tariffs.isEmpty = false := by
    cases hts : atc.tariffs with
    | nil => exact absurd hts hne
    | cons t ts => rfl
  have hmean : atc.calculateAverageCost
      = (atc.tariffs.map TariffStrategy.getCost).sum / (atc.tariffs.length : R) := by
    simp [ATC.calculateAverageCost, hfalse, foldl_getCost_eq_sum]
  rw [hmean]
  have hlen : (0 : R) < (atc.tariffs.length : R) := by
    have hpos : 0 < atc.tariffs.length := List.length_pos.mpr hne
    exact_mod_cast hpos
  obtain ⟨h1, h2⟩ := sum_between (atc.tariffs.map TariffStrategy.getCost) lo hi (by
    intro x hx
    obtain ⟨t, ht, htx⟩ := List.mem_map.mp hx
    rw [← htx]
    exact h t ht)
  rw [List.length_map] at h1 h2
  constructor
  · rw [le_div_iff₀ hlen]
    linarith
  · rw [div_le_iff₀ hlen]
    linarith

end Lab_PPP_3

namespace Lab_PPP_3

set_option maxRecDepth 100000 in
/-- Counterexample to C21 as stated, in the arithmetic of `double`: the average can lie above
the largest `getCost()`.  Menu case 2 is run three times with the cost 0.2 and the discount
0.1 (the doubles nearest to 1/5 and 1/10), which are in the validated range.  Each of the
three tariffs has `getCost()` equal to the double 0.1, and `calculateAverageCost()`, the
rounded sum 0.1 + 0.1 + 0.1 divided by 3, is the next double above 0.1. -/
theorem average_above_largest_cost_in_double :
    (0 : Binary64) ≤ 1 / 10 ∧ (1 : Binary64) / 10 ≤ 1 / 5 ∧
    menuRun (ATC.empty : ATC Binary64)
        [(.fixedDiscount, "A", [some (1 / 5), some (1 / 10)]),
          (.fixedDiscount, "B", [some (1 / 5), some (1 / 10)]),
          (.fixedDiscount, "C", [some (1 / 5), some (1 / 10)])]
      = some (ATC.mk [.FixedDiscountTariff "A" (1 / 5) (1 / 10),
          .FixedDiscountTariff "B" (1 / 5) (1 / 10),
          .FixedDiscountTariff "C" (1 / 5) (1 / 10)]) ∧
    (∀ t ∈ (ATC.mk [TariffStrategy.FixedDiscountTariff "A" ((1 : Binary64) / 5) (1 / 10),
          .FixedDiscountTariff "B" (1 / 5) (1 / 10),
          .FixedDiscountTariff "C" (1 / 5) (1 / 10)]).tariffs,
      t.getCost ≤ 1 / 10 ∧ (1 : Binary64) / 10 ≤ t.getCost) ∧
    ¬ ((ATC.mk [TariffStrategy.FixedDiscountTariff "A" ((1 : Binary64) / 5) (1 / 10),
          .FixedDiscountTariff "B" (1 / 5) (1 / 10),
          .FixedDiscountTariff "C" (1 / 5) (1 / 10)]).calculateAverageCost
        ≤ 1 / 10) ∧
    (ATC.mk [TariffStrategy.FixedDiscountTariff "A" ((1 : Binary64) / 5) (1 / 10),
          .FixedDiscountTariff "B" (1 / 5) (1 / 10),
          .FixedDiscountTariff "C" (1 / 5) (1 / 10)]).calculateAverageCost
      = Binary64.finite false 7205759403792795 (-56) := by
  decide

/-- C21, amended: for finite values (the carrier is a linear ordered field: no infinity, no
NaN) in the validated parameter ranges the discounted cost stays within `[0, base cost]`: a
FixedDiscountTariff with `0 ≤ discount ≤ cost` and a PercentageDiscountTariff with
`cost ≥ 0` and `0 ≤ percentage ≤ 100` have `0 ≤ getCost() ≤ getOriginalCost()`, and for a
non-empty catalog of such tariffs `calculateAverageCost()` is `≥ 0`.  Nothing is said of the
place of the average between the smallest and the largest `getCost()`. -/
theorem discounted_cost_within_base {R : Type} [LinearOrderedField R] (atc : ATC R)
    (hne : atc.tariffs ≠ [])
    (hvalid : ∀ t ∈ atc.tariffs,
      (∃ (dest : String) (c d : R),
        t = .FixedDiscountTariff dest c d ∧ 0 ≤ d ∧ d ≤ c) ∨
      (∃ (dest : String) (c p : R),
        t = .PercentageDiscountTariff dest c p ∧ 0 ≤ c ∧ 0 ≤ p ∧ p ≤ 100)) :
    (∀ (dest : String) (c d : R), 0 ≤ d → d ≤ c →
      0 ≤ (TariffStrategy.FixedDiscountTariff dest c d).getCost ∧
      (TariffStrategy.FixedDiscountTariff dest c d).getCost
        ≤ (TariffStrategy.FixedDiscountTariff dest c d).getOriginalCost) ∧
    (∀ (dest : String) (c p : R), 0 ≤ c → 0 ≤ p → p ≤ 100 →
      0 ≤ (TariffStrategy.PercentageDiscountTariff dest c p).getCost ∧
      (TariffStrategy.PercentageDiscountTariff dest c p).getCost
        ≤ (TariffStrategy.PercentageDiscountTariff dest c p).getOriginalCost) ∧
    0 ≤ atc.calculateAverageCost := by
  have hfixed : ∀ (dest : String) (c d : R), 0 ≤ d → d ≤ c →
      0 ≤ (TariffStrategy.FixedDiscountTariff dest c d).getCost ∧
      (TariffStrategy.FixedDiscountTariff dest c d).getCost
        ≤ (TariffStrategy.FixedDiscountTariff dest c d).getOriginalCost := by
    intro dest c d hd hdc
    simp only [TariffStrategy.getCost, TariffStrategy.getOriginalCost]
    constructor <;> linarith
  have hperc : ∀ (dest : String) (c p : R), 0 ≤ c → 0 ≤ p → p ≤ 100 →
      0 ≤ (TariffStrategy.PercentageDiscountTariff dest c p).getCost ∧
      (TariffStrategy.PercentageDiscountTariff dest c p).getCost
        ≤ (TariffStrategy.PercentageDiscountTariff dest c p).getOriginalCost := by
    intro dest c p hc hp hp100
    simp only [TariffStrategy.getCost, TariffStrategy.getOriginalCost]
    have hfrac0 : 0 ≤ p / 100 := div_nonneg hp (by norm_num)
    have hfrac1 : p / 100 ≤ 1 := by
      rw [div_le_one (by norm_num)]
      exact hp100
    constructor
    · exact mul_nonneg hc (by linarith)
    · calc c * (1 - p / 100) ≤ c * 1 := mul_le_mul_of_nonneg_left (by linarith) hc
        _ = c := mul_one c
  have hnonneg : ∀ t ∈ atc.tariffs, 0 ≤ t.getCost := by
    intro t ht
    rcases hvalid t ht with ⟨dest, c, d, heq, hd, hdc⟩ | ⟨dest, c, p, heq, hc, hp, hp100⟩
    · rw [heq]
      exact (hfixed dest c d hd hdc).1
    · rw [heq]
      exact (hperc dest c p hc hp hp100).1
  obtain ⟨tmin, hmin, tmax, _, hall⟩ := exists_min_max_getCost atc.tariffs hne
  have hbetween := calculateAverageCost_between atc hne tmin.getCost tmax.getCost hall
  exact ⟨hfixed, hperc, le_trans (hnonneg tmin hmin) hbetween.1⟩

/-- The amended C21 on the catalog holding a fixed discount of 30 on 100 and a percentage
discount of 10 on 50: the discounted costs 70 and 45 lie within `[0, 100]` and `[0, 50]`,
and the average is not negative. -/
theorem discounted_cost_within_base_witness :
    (0 : ℚ) ≤ (TariffStrategy.FixedDiscountTariff "Paris" (100 : ℚ) 30).getCost ∧
    (TariffStrategy.FixedDiscountTariff "Paris" (100 : ℚ) 30).getCost ≤ 100 ∧
    (0 : ℚ) ≤ (TariffStrategy.PercentageDiscountTariff "Rome" (50 : ℚ) 10).getCost ∧
    (TariffStrategy.PercentageDiscountTariff "Rome" (50 : ℚ) 10).getCost ≤ 50 ∧
    (0 : ℚ) ≤ (ATC.mk [.FixedDiscountTariff "Paris" (100 : ℚ) 30,
      .PercentageDiscountTariff "Rome" 50 10]).calculateAverageCost := by
  have key := discounted_cost_within_base
    (ATC.mk [.FixedDiscountTariff "Paris" (100 : ℚ) 30,
      .PercentageDiscountTariff "Rome" 50 10])
    (by simp)
    (by
      intro t ht
      simp only [List.mem_cons, List.mem_singleton, List.not_mem_nil, or_false] at ht
      rcases ht with h | h
      · exact Or.inl ⟨"Paris", 100, 30, h, by norm_num, by norm_num⟩
      · exact Or.inr ⟨"Rome", 50, 10, h, by norm_num, by norm_num, by norm_num⟩)
  obtain ⟨hfixed, hperc, hpos⟩ := key
  have h1 := hfixed "Paris" 100 30 (by norm_num) (by norm_num)
  have h2 := hperc "Rome" 50 10 (by norm_num) (by norm_num) (by norm_num)
  exact ⟨h1.1, h1.2, h2.1, h2.2, hpos⟩

end Lab_PPP_3
